import Mathlib

/-! Verification of the Snippet desktop utility backend (src/main.js).
    The privileged main-process functions are shallowly embedded:
    JS strings are Lean strings, JS numbers are rationals, and platform
    primitives (the WHATWG URL parser, Node net.isIP, path helpers) are
    modelled by explicit executable functions documented at their
    definitions. -/

namespace Snippet

/-- Decidable equality on Except, used to evaluate the model on concrete
    inputs inside proofs. -/
instance {ε α : Type} [DecidableEq ε] [DecidableEq α] :
    DecidableEq (Except ε α) := fun a b =>
  match a, b with
  | .error e, .error f => decidable_of_iff (e = f) (by simp)
  | .error _, .ok _ => isFalse (by intro h; exact Except.noConfusion h)
  | .ok _, .error _ => isFalse (by intro h; exact Except.noConfusion h)
  | .ok x, .ok y => decidable_of_iff (x = y) (by simp)

/-- Model of the JavaScript whitespace class used by String.prototype.trim
    and the regexp class backslash-s: ASCII space, tab, LF, VT, FF, CR,
    NBSP, and the Unicode space separators plus BOM. -/
def isJsSpace (c : Char) : Bool :=
  c = ' ' || c = '\t' || c = '\n' || c = '\r' ||
  c.toNat = 11 || c.toNat = 12 || c.toNat = 0xa0 || c.toNat = 0x1680 ||
  (0x2000 ≤ c.toNat && c.toNat ≤ 0x200a) ||
  c.toNat = 0x2028 || c.toNat = 0x2029 || c.toNat = 0x202f ||
  c.toNat = 0x205f || c.toNat = 0x3000 || c.toNat = 0xfeff

/-- Model of String.prototype.trim on a character list: drop JS whitespace
    from both ends. -/
def jsTrimList (l : List Char) : List Char :=
  ((l.dropWhile isJsSpace).reverse.dropWhile isJsSpace).reverse

/-- Model of String.prototype.trim. -/
def jsTrim (s : String) : String :=
  String.mk (jsTrimList s.toList)

/-- ASCII lower-casing of one character, as String.prototype.toLowerCase
    does on ASCII input (the model ignores non-ASCII case mappings, which
    no hostname in the claims uses). -/
def toLowerC (c : Char) : Char :=
  if 'A' ≤ c && c ≤ 'Z' then Char.ofNat (c.toNat + 32) else c

/-- Model of String.prototype.toLowerCase. -/
def toLowerStr (s : String) : String :=
  String.mk (s.toList.map toLowerC)

def isDigitC (c : Char) : Bool :=
  '0' ≤ c && c ≤ '9'

def digitVal (c : Char) : Nat :=
  c.toNat - 48

/-- Numeric value of a decimal digit string (most significant first). -/
def digitsToNat (l : List Char) : Nat :=
  l.foldl (fun acc c => 10 * acc + digitVal c) 0

/-- Boolean test that a string is a prefix of another
    (String.prototype.startsWith). -/
def hasPref (p s : String) : Bool :=
  p.toList.isPrefixOf s.toList

/-- Boolean test that a string is a suffix of another
    (String.prototype.endsWith). -/
def hasSuffixStr (p s : String) : Bool :=
  p.toList.isSuffixOf s.toList

/-- Boolean infix test on lists. -/
def infixBool (p : List Char) : List Char → Bool
  | [] => p.isEmpty
  | c :: t => p.isPrefixOf (c :: t) || infixBool p t

/-- Boolean substring containment (String.prototype.includes). -/
def containsSub (needle hay : String) : Bool :=
  needle.toList.isPrefixOf hay.toList || infixBool needle.toList hay.toList

/-! URL model.  src/main.js parses the trimmed input with the WHATWG URL
    constructor (new URL) and then reads .protocol and .hostname.  The
    parser is modelled here for absolute URLs of the shapes the validator
    sees: scheme, "://", optional userinfo, host (opaque or bracketed
    IPv6), optional numeric port, then path/query/fragment, which the
    validator ignores.  A host that ends in a number is IPv4-normalized
    exactly as the WHATWG parser requires (ends-in-a-number check, the
    radix-aware IPv4 number parser, dotted-decimal re-serialization;
    parse failure throws).  Deliberate simplifications, none of which
    affects a claim input: tab/newline stripping inside the URL,
    percent-decoding of the host and IDNA mapping are not modelled (the
    claims' hosts are ASCII with no percent escapes). -/

structure ParsedUrl where
  protocol : String
  hostname : String
deriving DecidableEq

def isSchemeChar (c : Char) : Bool :=
  c.isAlpha || c.isDigit || c = '+' || c = '-' || c = '.'

/-- Characters that end the authority section of a URL. -/
def isAuthEnd (c : Char) : Bool :=
  c = '/' || c = '?' || c = '#'

/-- Characters the WHATWG host parser refuses in an opaque host
    (forbidden host code points, plus controls and space). -/
def hostForbidden (c : Char) : Bool :=
  c = ':' || c = '/' || c = '?' || c = '#' || c = '@' ||
  c = '[' || c = ']' || c = '\\' || c = '%' || c = '<' || c = '>' ||
  c = '^' || c = '|' || c.toNat = 34 || c.toNat ≤ 32 || c.toNat = 127

/-- Drop everything up to and including the last at-sign (userinfo). -/
def afterLastAt (l : List Char) : List Char :=
  (l.reverse.takeWhile (fun c => c ≠ '@')).reverse

/-- Loose validity for the inside of a bracketed IPv6 host. -/
def ipv6Char (c : Char) : Bool :=
  c.isDigit || ('a' ≤ c && c ≤ 'f') || ('A' ≤ c && c ≤ 'F') || c = ':' || c = '.'

/-- A port section is empty or a colon followed by digits. -/
def portOk : List Char → Bool
  | [] => true
  | ':' :: ds => ds.all isDigitC
  | _ => false

def isOctDigitC (c : Char) : Bool :=
  '0' ≤ c && c ≤ '7'

def isHexDigitC (c : Char) : Bool :=
  isDigitC c || ('a' ≤ c && c ≤ 'f') || ('A' ≤ c && c ≤ 'F')

def hexDigitVal (c : Char) : Nat :=
  if c.toNat ≤ 57 then c.toNat - 48
  else if c.toNat ≤ 70 then c.toNat - 55
  else c.toNat - 87

def hexToNat (l : List Char) : Nat :=
  l.foldl (fun acc c => 16 * acc + hexDigitVal c) 0

def octToNat (l : List Char) : Nat :=
  l.foldl (fun acc c => 8 * acc + digitVal c) 0

/-- Strictly split on every dot, keeping empty parts, as the WHATWG
    host parser does. -/
def splitOnDot : List Char → List (List Char)
  | [] => [[]]
  | c :: t =>
    if c = '.' then [] :: splitOnDot t
    else
      match splitOnDot t with
      | p :: ps => (c :: p) :: ps
      | [] => [[c]]

/-- A part of the form 0x... / 0X... with only hex digits after the
    prefix (possibly none). -/
def isHexForm : List Char → Bool
  | '0' :: 'x' :: rest => rest.all isHexDigitC
  | '0' :: 'X' :: rest => rest.all isHexDigitC
  | _ => false

/-- Last dotted part of a host, after dropping a single trailing empty
    part (trailing dot), as the WHATWG ends-in-a-number checker does;
    none when the host is a lone empty part. -/
def lastPart (host : List Char) : Option (List Char) :=
  match (splitOnDot host).reverse with
  | [] => none
  | last :: rest =>
    if last = [] then
      match rest with
      | [] => none
      | l2 :: _ => some l2
    else some last

/-- WHATWG ends-in-a-number checker: the last dotted part is a nonempty
    run of decimal digits, or a 0x-prefixed hex number. -/
def endsInNumber (host : List Char) : Bool :=
  match lastPart host with
  | none => false
  | some l => !l.isEmpty && (l.all isDigitC || isHexForm l)

/-- WHATWG IPv4-number parser: hex after a 0x/0X prefix (empty digits
    mean zero), octal after a leading 0, decimal otherwise; any invalid
    digit for the chosen radix is a failure. -/
def ipv4NumPart : List Char → Option Nat
  | [] => none
  | c :: rest =>
    if c = '0' then
      match rest with
      | [] => some 0
      | e :: rest2 =>
        if e = 'x' ∨ e = 'X' then
          if rest2.all isHexDigitC then some (hexToNat rest2) else none
        else if rest.all isOctDigitC then some (octToNat rest) else none
    else if (c :: rest).all isDigitC then some (digitsToNat (c :: rest))
    else none

/-- Combine the numeric dotted parts per the WHATWG IPv4 parser: at
    most four parts, all but the last at most 255, the last bounded by
    256 to the power of the number of missing parts. -/
def ipv4FromNums : List Nat → Option Nat
  | [a] => if a < 4294967296 then some a else none
  | [a, b] =>
    if a ≤ 255 ∧ b < 16777216 then some (a * 16777216 + b) else none
  | [a, b, c] =>
    if a ≤ 255 ∧ b ≤ 255 ∧ c < 65536 then
      some (a * 16777216 + b * 65536 + c)
    else none
  | [a, b, c, d] =>
    if a ≤ 255 ∧ b ≤ 255 ∧ c ≤ 255 ∧ d < 256 then
      some (a * 16777216 + b * 65536 + c * 256 + d)
    else none
  | _ => none

def parsePartsNums : List (List Char) → Option (List Nat)
  | [] => some []
  | p :: ps =>
    match ipv4NumPart p, parsePartsNums ps with
    | some n, some ns => some (n :: ns)
    | _, _ => none

/-- WHATWG IPv4 parser on a whole host: strict split on dots, drop one
    trailing empty part, parse every part as an IPv4 number, combine.
    none models the URL constructor throwing. -/
def ipv4Parse (host : List Char) : Option Nat :=
  let parts := splitOnDot host
  let parts2 :=
    if parts.getLast? = some [] ∧ 1 < parts.length then parts.dropLast
    else parts
  match parsePartsNums parts2 with
  | some ns => ipv4FromNums ns
  | none => none

/-- Decimal digits of one byte value, no leading zeros. -/
def serOctet (n : Nat) : List Char :=
  if n < 10 then [Char.ofNat (48 + n)]
  else if n < 100 then [Char.ofNat (48 + n / 10), Char.ofNat (48 + n % 10)]
  else [Char.ofNat (48 + n / 100), Char.ofNat (48 + n / 10 % 10),
        Char.ofNat (48 + n % 10)]

/-- WHATWG IPv4 serializer: dotted decimal of the four bytes. -/
def serializeIPv4 (n : Nat) : List Char :=
  serOctet (n / 16777216 % 256) ++ '.' ::
  (serOctet (n / 65536 % 256) ++ '.' ::
  (serOctet (n / 256 % 256) ++ '.' :: serOctet (n % 256)))

/-- Parse the host-and-port section; returns the .hostname value
    (lower-cased; brackets kept for IPv6, as in Node).  A host that
    ends in a number is IPv4-normalized as the WHATWG parser requires:
    parsed as an IPv4 numeric host (failure throws) and re-serialized
    in dotted-decimal form. -/
def parseHostPort (scheme : List Char) (hp : List Char) : Option ParsedUrl :=
  if hp.headD ' ' = '[' then
    let rest := hp.tail
    let inside := rest.takeWhile (fun c => c ≠ ']')
    match rest.dropWhile (fun c => c ≠ ']') with
    | ']' :: tail =>
      if inside.isEmpty then none
      else if !inside.all ipv6Char then none
      else if portOk tail then
        some ⟨String.mk (scheme.map toLowerC) ++ ":",
              String.mk ('[' :: inside.map toLowerC ++ [']'])⟩
      else none
    | _ => none
  else
    let host := hp.takeWhile (fun c => c ≠ ':')
    let port := hp.dropWhile (fun c => c ≠ ':')
    if host.isEmpty then none
    else if host.any hostForbidden then none
    else if portOk port then
      if endsInNumber (host.map toLowerC) then
        match ipv4Parse (host.map toLowerC) with
        | some n =>
          some ⟨String.mk (scheme.map toLowerC) ++ ":",
                String.mk (serializeIPv4 n)⟩
        | none => none
      else
        some ⟨String.mk (scheme.map toLowerC) ++ ":",
              String.mk (host.map toLowerC)⟩
    else none

/-- Model of the WHATWG URL constructor restricted to the fields the
    validator reads; none means the constructor throws. -/
def parseUrlList (l : List Char) : Option ParsedUrl :=
  let scheme := l.takeWhile (fun c => c ≠ ':')
  if scheme.isEmpty then none
  else if !scheme.all isSchemeChar then none
  else if !(match scheme with | c :: _ => c.isAlpha | [] => false) then none
  else
    match l.dropWhile (fun c => c ≠ ':') with
    | ':' :: '/' :: '/' :: r =>
      let auth := r.takeWhile (fun c => !isAuthEnd c)
      parseHostPort scheme (afterLastAt auth)
    | _ => none

/-! Translation of isLoopbackOrPrivateIP (src/main.js lines 37-85). -/

/-- Value of one dotted-quad part under the net.isIP rules: one to three
    decimal digits, no leading zero, value at most 255.  The explicit
    cases mirror the bound part length. -/
def octFromDigits : List Char → Option Nat
  | [a] => if isDigitC a then some (digitVal a) else none
  | [a, b] =>
    if isDigitC a && a ≠ '0' && isDigitC b then
      some (10 * digitVal a + digitVal b)
    else none
  | [a, b, c] =>
    if isDigitC a && a ≠ '0' && isDigitC b && isDigitC c &&
       decide (100 * digitVal a + 10 * digitVal b + digitVal c ≤ 255) then
      some (100 * digitVal a + 10 * digitVal b + digitVal c)
    else none
  | _ => none

/-- Read one octet from the front of a list; returns the rest. -/
def readOct (l : List Char) : Option (Nat × List Char) :=
  match octFromDigits (l.takeWhile isDigitC) with
  | some v => some (v, l.dropWhile isDigitC)
  | none => none

/-- Model of net.isIP(h) === 4 together with the split-and-Number step of
    the code: a dotted quad a.b.c.d with octet rules as in Node. -/
def parseIPv4 (l : List Char) : Option (Nat × Nat × Nat × Nat) :=
  match readOct l with
  | some (a, '.' :: r1) =>
    match readOct r1 with
    | some (b, '.' :: r2) =>
      match readOct r2 with
      | some (c, '.' :: r3) =>
        match readOct r3 with
        | some (d, []) => some (a, b, c, d)
        | _ => none
      | _ => none
    | _ => none
  | _ => none

/-- Test for the regexp caret-backslash-d-plus: a nonempty all-digit
    string. -/
def allDigits (l : List Char) : Bool :=
  !l.isEmpty && l.all isDigitC

/-- Translation of isLoopbackOrPrivateIP from src/main.js.  JS 32-bit
    shift-and-mask octet extraction is written as division and modulus,
    which agrees with the source for every value parseInt can produce
    within the guarded range 0..0xffffffff. -/
def isLoopbackOrPrivateIP (hostname : String) : Bool :=
  if hostname = "" then false
  else
    let h := toLowerStr hostname
    let hl := h.toList
    match parseIPv4 hl with
    | some (a, b, c, d) =>
      a = 127 || a = 10 || (a = 172 && 16 ≤ b && b ≤ 31) ||
      (a = 192 && b = 168) || (a = 0 && b = 0 && c = 0 && d = 0)
    | none =>
      if allDigits hl then
        let num := digitsToNat hl
        if 0xffffffff < num then false
        else
          let a := num / 2 ^ 24 % 256
          let b := num / 2 ^ 16 % 256
          a = 127 || a = 10 || (a = 172 && 16 ≤ b && b ≤ 31) ||
          (a = 192 && b = 168) ||
          (a = 0 && b = 0 && num / 2 ^ 8 % 256 = 0 && num % 256 = 0)
      else
        h = "::1" || h = "[::1]" ||
        hasPref "::ffff:127." h || hasPref "::ffff:0x7f" h ||
        hasPref "::ffff:7f" h

/-- Test of the literal private-range regexp of src/main.js line 112
    applied to the part after the string "172.": two characters forming
    16 to 31 followed by a dot. -/
def test172Tail : List Char → Bool
  | x :: y :: z :: _ =>
    z = '.' &&
    ((x = '1' && '6' ≤ y && y ≤ '9') || (x = '2' && isDigitC y) ||
     (x = '3' && (y = '0' || y = '1')))
  | _ => false

/-- Model of the regexp caret-10-dot, caret-172-(16..31)-dot,
    caret-192.168-dot test of src/main.js line 112. -/
def privateRegexTest (h : String) : Bool :=
  hasPref "10." h || hasPref "192.168." h ||
  (hasPref "172." h && test172Tail (h.toList.drop 4))

def MAX_URL_LENGTH : Nat := 2048

def blockedHosts : List String :=
  ["localhost", "127.0.0.1", "0.0.0.0", "::1", "[::1]"]

/-- Translation of validateUrl (src/main.js lines 86-119).  A thrown
    Error message is an Except.error; the model input is always a string
    (the non-string branch of the typeof guard collapses with the
    falsy-empty-string branch). -/
def validateUrl (input : String) : Except String String :=
  if input = "" then .error "URL is required"
  else
    let trimmed := jsTrim input
    if trimmed = "" then .error "URL is required"
    else if MAX_URL_LENGTH < trimmed.length then .error "URL is too long"
    else
      match parseUrlList trimmed.toList with
      | none => .error "Invalid URL"
      | some parsed =>
        if parsed.protocol ≠ "http:" && parsed.protocol ≠ "https:" then
          .error "Only HTTP and HTTPS URLs are allowed"
        else if blockedHosts.contains (toLowerStr parsed.hostname) then
          .error "Localhost URLs are not allowed"
        else if privateRegexTest parsed.hostname then
          .error "Private network URLs are not allowed"
        else if isLoopbackOrPrivateIP parsed.hostname then
          .error "Localhost and private network URLs are not allowed"
        else .ok trimmed

/-! Filename sanitizer (src/main.js lines 224-233). -/

/-- Characters removed by the first replace of sanitizeFilename:
    angle brackets, colon, double quote, slash, backslash, pipe,
    question mark, asterisk. -/
def badFilenameChar (c : Char) : Bool :=
  c = '<' || c = '>' || c = ':' || c.toNat = 34 || c = '/' ||
  c = '\\' || c = '|' || c = '?' || c = '*'

/-- First replace of sanitizeFilename: delete the illegal characters. -/
def stripBad (l : List Char) : List Char :=
  l.filter (fun c => !badFilenameChar c)

/-- Second replace of sanitizeFilename: each maximal whitespace run
    becomes one space.  The flag records whether the previous character
    was inside a whitespace run. -/
def collapseWsAux : Bool → List Char → List Char
  | _, [] => []
  | prev, c :: rest =>
    if isJsSpace c then
      if prev then collapseWsAux true rest
      else ' ' :: collapseWsAux true rest
    else c :: collapseWsAux false rest

def collapseWs (l : List Char) : List Char :=
  collapseWsAux false l

/-- Translation of sanitizeFilename from src/main.js: strip illegal
    characters, collapse whitespace, trim, take 200 characters, and fall
    back to the string audio when the input or the result is empty. -/
def sanitizeFilename (title : String) : String :=
  if title = "" then "audio"
  else
    let r := String.mk ((jsTrimList (collapseWs (stripBad title.toList))).take 200)
    if r = "" then "audio" else r

/-! Parameter validator (src/main.js lines 120-148).  JS values reaching
    the validator are modelled by JSVal: undefined, null, a finite number
    (as a rational), NaN, or a string.  Number(v) is jsToNumber; none is
    NaN. -/

inductive JSVal where
  | undef : JSVal
  | nullv : JSVal
  | numv : Rat → JSVal
  | nanv : JSVal
  | strv : String → JSVal
deriving DecidableEq

/-- Numeric value of an unsigned decimal literal with optional fraction
    part, as Number accepts (exponents and hex are not modelled; no claim
    input uses them). -/
def parseUnsignedNum (l : List Char) : Option Rat :=
  let ip := l.takeWhile isDigitC
  match l.dropWhile isDigitC with
  | [] => if ip.isEmpty then none else some (digitsToNat ip)
  | '.' :: fr =>
    if fr.all isDigitC && !(ip.isEmpty && fr.isEmpty) then
      some ((digitsToNat ip : Rat) + (digitsToNat fr : Rat) / (10 ^ fr.length : Nat))
    else none
  | _ => none

/-- Model of Number applied to a string: trim, empty is zero, otherwise
    an optionally signed decimal literal; none is NaN. -/
def strToNumber (s : String) : Option Rat :=
  match jsTrimList s.toList with
  | [] => some 0
  | '-' :: t => (parseUnsignedNum t).map Neg.neg
  | '+' :: t => parseUnsignedNum t
  | l => parseUnsignedNum l

/-- Model of Number applied to a JS value; none is NaN. -/
def jsToNumber : JSVal → Option Rat
  | .undef => none
  | .nullv => some 0
  | .numv q => some q
  | .nanv => none
  | .strv s => strToNumber s

structure DownloadParams where
  startTime : JSVal
  endTime : JSVal
  playbackSpeed : JSVal

structure ValidatedParams where
  startTime : Option Rat
  endTime : Option Rat
  playbackSpeed : Option Rat
deriving DecidableEq

def MAX_DURATION_SECONDS : Nat := 604800

/-- One guarded time-field block of validateDownloadParams: skip when
    undefined, null or the empty string, otherwise coerce with Number and
    require 0 to MAX_DURATION_SECONDS, throwing msg otherwise. -/
def checkTimeField (msg : String) (v : JSVal) : Except String (Option Rat) :=
  if v ≠ .undef ∧ v ≠ .nullv ∧ v ≠ .strv "" then
    match jsToNumber v with
    | none => .error msg
    | some s =>
      if s < 0 ∨ ((MAX_DURATION_SECONDS : Nat) : Rat) < s then .error msg
      else .ok (some s)
  else .ok none

/-- The playbackSpeed block of validateDownloadParams: skip when
    undefined, null or strictly equal to the number one, otherwise
    coerce and require 0.25 to 4. -/
def checkSpeedField (v : JSVal) : Except String (Option Rat) :=
  if v ≠ .undef ∧ v ≠ .nullv ∧ v ≠ .numv 1 then
    match jsToNumber v with
    | none => .error "Playback speed must be between 0.25 and 4"
    | some p =>
      if p < (1 / 4 : Rat) ∨ (4 : Rat) < p then
        .error "Playback speed must be between 0.25 and 4"
      else .ok (some p)
  else .ok none

/-- Translation of validateDownloadParams (src/main.js lines 120-148):
    the three guarded field blocks run in order and the first violation
    throws. -/
def validateDownloadParams (params : DownloadParams) : Except String ValidatedParams :=
  match checkTimeField "Invalid start time" params.startTime with
  | .error e => .error e
  | .ok startOut =>
    match checkTimeField "Invalid end time" params.endTime with
    | .error e => .error e
    | .ok endOut =>
      match checkSpeedField params.playbackSpeed with
      | .error e => .error e
      | .ok speedOut => .ok ⟨startOut, endOut, speedOut⟩

/-! Transcoder argument construction (src/main.js lines 234-248 and
    560-575).  The fluent-ffmpeg command is abstracted to the three
    options the orchestrator sets from validated parameters; an atempo
    filter chain is the list of its numeric stages. -/

structure FfmpegCmd where
  seekInput : Option Rat
  duration : Option Rat
  atempoStages : Option (List Rat)
deriving DecidableEq

/-- Translation of getAtempoFilter: null for a missing, zero or unit
    speed; two chained halvings for exactly 0.25; a single stage below
    0.5 otherwise; a 2.0 stage followed by the remaining ratio above
    2.0; a single stage in between. -/
def getAtempoFilter (speed : Rat) : Option (List Rat) :=
  if speed = 0 ∨ speed = 1 then none
  else if speed < (1 / 2 : Rat) then
    if speed = (1 / 4 : Rat) then some [1 / 2, 1 / 2] else some [speed]
  else if (2 : Rat) < speed then some [2, speed / 2]
  else some [speed]

/-- Translation of the command construction in the download-mp3 handler:
    seek to startTime when present; set a duration of endTime minus
    startTime (startTime defaulting to zero) only when endTime is present
    and the difference is positive; attach the atempo filter when a
    non-unit speed is present and the filter is non-null. -/
def buildFfmpegCommand (startTimeVal endTimeVal playbackSpeedVal : Option Rat) :
    FfmpegCmd :=
  let seek := startTimeVal
  let dur :=
    match endTimeVal with
    | none => none
    | some e =>
      let d := e - startTimeVal.getD 0
      if 0 < d then some d else none
  let filt :=
    match playbackSpeedVal with
    | none => none
    | some p => if p = 1 then none else getAtempoFilter p
  ⟨seek, dur, filt⟩

/-! Filesystem path model (Node path module, posix flavour, as used on
    the macOS target).  Claims exercise absolute paths without trailing
    separators; trailing-separator preservation and Windows separators
    are not modelled. -/

/-- Split a character list on slashes. -/
def splitSlash : List Char → List (List Char)
  | [] => [[]]
  | '/' :: t => [] :: splitSlash t
  | c :: t =>
    match splitSlash t with
    | [] => [[c]]
    | s :: rest => (c :: s) :: rest

/-- Resolve dot and dot-dot segments; acc holds finished segments in
    reverse.  For an absolute path dot-dot above the root is dropped. -/
def normSegsAux (isAbs : Bool) (acc : List (List Char)) :
    List (List Char) → List (List Char)
  | [] => acc.reverse
  | seg :: rest =>
    if seg.isEmpty || seg = ['.'] then normSegsAux isAbs acc rest
    else if seg = ['.', '.'] then
      match acc with
      | [] =>
        if isAbs then normSegsAux isAbs [] rest
        else normSegsAux isAbs [['.', '.']] rest
      | top :: accT =>
        if top = ['.', '.'] then normSegsAux isAbs (seg :: acc) rest
        else normSegsAux isAbs accT rest
    else normSegsAux isAbs (seg :: acc) rest

/-- Model of path.normalize (posix). -/
def pathNormalize (s : String) : String :=
  let l := s.toList
  let isAbs := decide (l.headD ' ' = '/')
  let segs := normSegsAux isAbs [] (splitSlash l)
  let core := List.intercalate ['/'] segs
  if isAbs then String.mk ('/' :: core)
  else if core.isEmpty then "." else String.mk core

/-- Model of path.basename without the extension argument. -/
def baseNameList (l : List Char) : List Char :=
  (l.reverse.takeWhile (fun c => c ≠ '/')).reverse

def baseNameStr (s : String) : String :=
  String.mk (baseNameList s.toList)

/-- Model of path.extname: from the last dot of the basename, unless that
    dot is its first character. -/
def extnameList (l : List Char) : List Char :=
  let b := baseNameList l
  let rev := b.reverse
  let pre := rev.takeWhile (fun c => c ≠ '.')
  if pre.length = rev.length then []
  else if pre.length + 1 = b.length then []
  else '.' :: pre.reverse

def extnameStr (s : String) : String :=
  String.mk (extnameList s.toList)

/-- Model of path.basename with an extension argument: the suffix is
    removed when it matches and is not the whole basename. -/
def baseNameExtStr (s ext : String) : String :=
  let b := baseNameStr s
  if ext ≠ "" ∧ hasSuffixStr ext b ∧ b ≠ ext then
    String.mk (b.toList.take (b.toList.length - ext.toList.length))
  else b

/-! Local path validator (src/main.js lines 157-203). -/

def ALLOWED_SOURCE_EXT : List String := [".mp3", ".mp4"]

/-- Startup configuration the path validator reads: the home directory,
    the private temp directory when it exists, and whether the platform
    is the one with a removable-volume mount root. -/
structure PathConfig where
  home : String
  tempDirPath : Option String
  isDarwin : Bool

/-- Translation of getAllowedBasePaths. -/
def getAllowedBasePaths (cfg : PathConfig) : List String :=
  [pathNormalize cfg.home] ++
  (match cfg.tempDirPath with
   | some t => [pathNormalize t]
   | none => []) ++
  (if cfg.isDarwin then [pathNormalize "/Volumes"] else [])

/-- Translation of isPathUnderAllowedBases: the resolved path equals a
    base or extends it past a separator. -/
def isPathUnderAllowedBases (cfg : PathConfig) (filePath : String) : Bool :=
  let resolved := pathNormalize filePath
  (getAllowedBasePaths cfg).any fun base =>
    resolved = base || hasPref (base ++ "/") resolved

/-- Outcome of fs.statSync in the model environment. -/
inductive StatResult where
  | fileR : StatResult
  | dirR : StatResult
  | enoent : StatResult
  | errR : String → StatResult
deriving DecidableEq

/-- Translation of validateLocalFilePath: require a nonempty string,
    normalize, check the extension allow-list, check base confinement,
    then stat; a missing file, a non-file, and other stat errors give
    their respective messages. -/
def validateLocalFilePath (cfg : PathConfig) (statOf : String → StatResult) :
    Option String → Except String String
  | none => .error "File path is required"
  | some s =>
    if s = "" then .error "File path is required"
    else
      let normalized := pathNormalize (jsTrim s)
      if normalized = "" then .error "File path is required"
      else
        let ext := toLowerStr (extnameStr normalized)
        if !ALLOWED_SOURCE_EXT.contains ext then
          .error "Only MP3 and MP4 files are allowed"
        else if !isPathUnderAllowedBases cfg normalized then
          .error "File path is not in an allowed directory"
        else
          match statOf normalized with
          | .fileR => .ok (pathNormalize normalized)
          | .dirR => .error "Path is not a file"
          | .enoent => .error "File not found"
          | .errR m => .error m

/-! Sender authentication (src/main.js lines 16-36) and the privileged
    entry points.  A webContents object is a handle with identity; the
    sender also carries the URL it currently has loaded. -/

structure WCHandle where
  hid : Nat
deriving DecidableEq

structure SenderInfo where
  handle : WCHandle
  loadedUrl : String
deriving DecidableEq

structure IpcEvent where
  sender : SenderInfo
deriving DecidableEq

structure MainWin where
  contents : WCHandle
  destroyed : Bool
deriving DecidableEq

structure AppState where
  mainWindow : Option MainWin
  isDev : Bool
deriving DecidableEq

/-- Translation of getAllowedOrigins. -/
def getAllowedOrigins (isDev : Bool) : List String :=
  if isDev then ["http://localhost:5173", "http://127.0.0.1:5173"]
  else ["file://"]

/-- Translation of isAllowedSender: reference identity of the sender with
    the registered main window contents, then an origin match of the
    loaded URL. -/
def isAllowedSender (st : AppState) (event : IpcEvent) : Bool :=
  match st.mainWindow with
  | none => false
  | some w =>
    if event.sender.handle ≠ w.contents then false
    else
      (getAllowedOrigins st.isDev).any fun origin =>
        if origin = "file://" then hasPref "file://" event.sender.loadedUrl
        else hasPref origin event.sender.loadedUrl

/-- Observable side effects a handler performs in the model: progress
    pushes, child-process spawns, dialogs, file copies and the shell
    reveal. -/
inductive Effect where
  | phase : String → Effect
  | spawnFetchInfo : Effect
  | spawnFetch : Effect
  | spawnTranscode : FfmpegCmd → Effect
  | spawnProbe : String → Effect
  | dialogOpen : Effect
  | dialogSave : String → Effect
  | copyFile : String → String → Effect
  | shellReveal : String → Effect
deriving DecidableEq

structure VideoInfo where
  duration : Option Rat
  title : Option String
deriving DecidableEq

/-- JS expression x or-else null for a number: zero and missing are
    falsy. -/
def jsOrNullNum : Option Rat → Option Rat
  | some q => if q = 0 then none else some q
  | none => none

/-- JS expression x or-else null for a string: empty and missing are
    falsy. -/
def jsOrNullStr : Option String → Option String
  | some s => if s = "" then none else some s
  | none => none

/-- validateUrl applied to a possibly-missing argument: an absent value
    is falsy and yields the required-error, as in the source. -/
def jsValidateUrl : Option String → Except String String
  | none => .error "URL is required"
  | some u => validateUrl u

/-- Translation of the get-video-info handler (src/main.js lines
    434-450). -/
def getVideoInfoHandler (st : AppState) (event : IpcEvent) (url : Option String)
    (infoResult : Except Unit VideoInfo) :
    Except String (Option Rat × Option String) × List Effect :=
  if !isAllowedSender st event then (.error "Unauthorized", [])
  else
    match jsValidateUrl url with
    | .error e => (.error e, [])
    | .ok _ =>
      match infoResult with
      | .error _ =>
        (.error "This link isn\x27t supported or couldn\x27t be reached.",
         [.spawnFetchInfo])
      | .ok info =>
        (.ok (jsOrNullNum info.duration, jsOrNullStr info.title),
         [.spawnFetchInfo])

structure OpenDialogEnv where
  canceled : Bool
  filePaths : List String
deriving DecidableEq

/-- Translation of the open-file-dialog handler (src/main.js lines
    451-476): sender gate, window check, dialog, then only an extension
    check on the chosen path. -/
def openFileDialogHandler (st : AppState) (event : IpcEvent)
    (env : OpenDialogEnv) : Except String (Option String) × List Effect :=
  if !isAllowedSender st event then (.error "Unauthorized", [])
  else
    match st.mainWindow with
    | none => (.error "Window not available", [])
    | some w =>
      if w.destroyed then (.error "Window not available", [])
      else if env.canceled || env.filePaths.isEmpty then (.ok none, [.dialogOpen])
      else
        let filePath := env.filePaths.headD ""
        let ext := toLowerStr (extnameStr filePath)
        if !ALLOWED_SOURCE_EXT.contains ext then
          (.error "Only MP3 and MP4 files are allowed", [.dialogOpen])
        else (.ok (some filePath), [.dialogOpen])

/-- Translation of the get-local-file-info handler (src/main.js lines
    477-485); the duration probe outcome is an environment input, with
    none for every failure mode of getLocalFileDuration. -/
def getLocalFileInfoHandler (st : AppState) (event : IpcEvent)
    (filePath : Option String) (cfg : PathConfig)
    (statOf : String → StatResult) (probe : Option Rat) :
    Except String (Option Rat × String) × List Effect :=
  if !isAllowedSender st event then (.error "Unauthorized", [])
  else
    match validateLocalFilePath cfg statOf filePath with
    | .error e => (.error e, [])
    | .ok vp =>
      let bn := baseNameExtStr vp (extnameStr vp)
      let title := if bn = "" then "audio" else bn
      (.ok (probe, title), [.spawnProbe vp])

/-- Translation of the show-item-in-folder handler (src/main.js lines
    666-683). -/
def showItemInFolderHandler (st : AppState) (event : IpcEvent)
    (filePath : Option String) (downloadsDir : String)
    (existsAt : String → Bool) : Except String Unit × List Effect :=
  if !isAllowedSender st event then (.error "Unauthorized", [])
  else
    match filePath with
    | none => (.error "File path is required", [])
    | some fp =>
      if jsTrim fp = "" then (.error "File path is required", [])
      else
        let resolved := pathNormalize (jsTrim fp)
        let resolvedDownloads := pathNormalize downloadsDir
        if resolved ≠ resolvedDownloads ∧
           ¬ hasPref (resolvedDownloads ++ "/") resolved = true then
          (.error "Path must be in the Downloads folder", [])
        else if !existsAt resolved then (.error "File not found", [])
        else (.ok (), [.shellReveal resolved])

/-! Download orchestrator (src/main.js lines 486-665).  The temp
    directory is a list of named files with modification times; external
    process outcomes, dialog answers and window liveness are environment
    inputs.  The decisive control-flow fact carried over from the source:
    the handler RETURNS the conversion promise from inside its
    try-block, so only errors thrown before that return (validation of
    the source, the fetch, locating the fetched file) reach the catch
    block and its timestamp sweep; rejections of the conversion promise
    (transcode errors, finalization errors, save-cancel) propagate to
    the caller without the sweep. -/

structure TempFile where
  name : String
  mtime : Nat
deriving DecidableEq

structure SaveResult where
  filename : String
  filePath : String
deriving DecidableEq

structure DlArgs where
  url : Option String
  sourceFilePath : Option String
  title : Option String
  startTime : JSVal
  endTime : JSVal
  playbackSpeed : JSVal

structure DlEnv where
  cfg : PathConfig
  statOf : String → StatResult
  infoResult : Except Unit VideoInfo
  fetchOk : Bool
  fetchErr : String
  fetchedExt : Option String
  fetchMtime : Nat
  ffmpegOk : Bool
  ffmpegErr : String
  partialOut : Bool
  partialMtime : Nat
  outMtime : Nat
  windowAliveAtEnd : Bool
  savePath : Option String

/-- The catch-block sweep: remove every temp file whose name contains
    the decimal job timestamp. -/
def sweepTemp (ts : Nat) (files : List TempFile) : List TempFile :=
  files.filter fun f => !containsSub (toString ts) f.name

def outPrefFor (ts : Nat) : String :=
  "output_" ++ toString ts

def outNameFor (ts : Nat) : String :=
  "output_" ++ toString ts ++ ".mp3"

def videoPrefFor (ts : Nat) : String :=
  "video_" ++ toString ts

/-- Model of the regexp replace that strips one trailing dot-extension
    (a dot followed by at least one character that is neither dot nor
    slash, at the end). -/
def stripLastExt (s : String) : String :=
  let l := s.toList
  let rev := l.reverse
  let extRev := rev.takeWhile fun c => c ≠ '.' && c ≠ '/'
  match rev.drop extRev.length with
  | '.' :: _ =>
    if extRev.isEmpty then s
    else String.mk (l.take (l.length - extRev.length - 1))
  | _ => s

/-- Search for the fetched media file: base name equals the video prefix
    or the name starts with it (src/main.js lines 548-552). -/
def findDownloadedFile (ts : Nat) (files : List TempFile) : Option TempFile :=
  files.find? fun f =>
    stripLastExt f.name = videoPrefFor ts || hasPref (videoPrefFor ts) f.name

/-- Search for this job's transcoder output by name prefix (src/main.js
    lines 580-581). -/
def findFinalOutput (ts : Nat) (files : List TempFile) : Option TempFile :=
  files.find? fun f => hasPref (outPrefFor ts) f.name

/-- Insert into a list already sorted by descending modification time,
    before the first entry that is not newer. -/
def insertDesc (f : TempFile) : List TempFile → List TempFile
  | [] => [f]
  | g :: t => if g.mtime ≤ f.mtime then f :: g :: t else g :: insertDesc f t

/-- Stable sort by descending modification time, the outcome of the
    sort with comparator b.time minus a.time. -/
def sortDesc : List TempFile → List TempFile
  | [] => []
  | f :: t => insertDesc f (sortDesc t)

/-- Fallback candidates when the job's own output is absent: every .mp3
    in the temp directory, most recently modified first (src/main.js
    lines 612-619). -/
def mp3Candidates (files : List TempFile) : List TempFile :=
  sortDesc (files.filter fun f => hasSuffixStr ".mp3" f.name)

/-- Delete a file by name (unlinkSync guarded by existsSync). -/
def removeName (n : String) (files : List TempFile) : List TempFile :=
  files.filter fun f => f.name ≠ n

/-- Translation of cleanupTempInput: remove the fetched input only for
    remote jobs, never a local source file. -/
def cleanupTempInput (isLocalFile : Bool) (dfp : String)
    (files : List TempFile) : List TempFile :=
  if !isLocalFile then removeName dfp files else files

/-- Create or overwrite a temp file. -/
def writeTemp (n : String) (mt : Nat) (files : List TempFile) : List TempFile :=
  removeName n files ++ [⟨n, mt⟩]

/-- Translation of promptAndSave (src/main.js lines 587-611): window
    check, save dialog, then on cancel remove the temp input and the
    final file and fail, otherwise copy out, clean both up and resolve. -/
def promptAndSave (env : DlEnv) (isLocalFile : Bool) (dfp : String)
    (finalFile : TempFile) (filename : String) (files : List TempFile) :
    Except String SaveResult × List TempFile × List Effect :=
  if !env.windowAliveAtEnd then (.error "Window not available", files, [])
  else
    match env.savePath with
    | none =>
      let files1 := removeName finalFile.name (cleanupTempInput isLocalFile dfp files)
      (.error "Save canceled", files1, [.dialogSave filename])
    | some savePath =>
      let files1 := removeName finalFile.name (cleanupTempInput isLocalFile dfp files)
      (.ok ⟨baseNameStr savePath, savePath⟩, files1,
        [.dialogSave filename, .copyFile finalFile.name savePath])

/-- Translation of the end-event block (src/main.js lines 577-639):
    locate the job's output by prefix; when absent fall back to the most
    recently modified .mp3 in the temp directory; fail with the
    not-found error only when no candidate exists at all. -/
def finalizePhase (env : DlEnv) (ts : Nat) (isLocalFile : Bool) (dfp : String)
    (videoTitle : String) (files : List TempFile) :
    Except String SaveResult × List TempFile × List Effect :=
  match findFinalOutput ts files with
  | some f => promptAndSave env isLocalFile dfp f (videoTitle ++ ".mp3") files
  | none =>
    match (mp3Candidates files).head? with
    | some f => promptAndSave env isLocalFile dfp f (videoTitle ++ ".mp3") files
    | none =>
      (.error "Output file not found", cleanupTempInput isLocalFile dfp files, [])

/-- Translation of the conversion promise (src/main.js lines 559-648):
    build the transcoder command from validated parameters and run it;
    on error delete the fetched input (and a partial output may remain);
    on success the output exists and finalization runs.  Errors here
    reject the returned promise and are NOT routed through the handler's
    catch block. -/
def conversionPhase (env : DlEnv) (ts : Nat) (vp : ValidatedParams)
    (isLocalFile : Bool) (dfp : String) (videoTitle : String)
    (files : List TempFile) :
    Except String SaveResult × List TempFile × List Effect :=
  let cmd := buildFfmpegCommand vp.startTime vp.endTime vp.playbackSpeed
  if !env.ffmpegOk then
    let files1 :=
      if env.partialOut then writeTemp (outNameFor ts) env.partialMtime files
      else files
    let files2 := cleanupTempInput isLocalFile dfp files1
    (.error env.ffmpegErr, files2, [.spawnTranscode cmd])
  else
    let files1 := writeTemp (outNameFor ts) env.outMtime files
    match finalizePhase env ts isLocalFile dfp videoTitle files1 with
    | (r, files2, effs) => (r, files2, .spawnTranscode cmd :: effs)

/-- Title used for a local job when the caller gave none. -/
def localTitleFallback (dfp : String) : String :=
  let s := sanitizeFilename (baseNameExtStr dfp (extnameStr dfp))
  if s = "" then "audio" else s

/-- Title used for a remote job when the caller gave none: probe the
    remote source, use its title when truthy, else the default output
    name; probe failure is non-fatal. -/
def remoteTitle (env : DlEnv) : String × List Effect :=
  match env.infoResult with
  | .ok info =>
    (match info.title with
     | some t => if t ≠ "" then sanitizeFilename t else "output"
     | none => "output", [.spawnFetchInfo])
  | .error _ => ("output", [.spawnFetchInfo])

/-- Translation of the try-block body up to the returned promise
    (src/main.js lines 501-557): progress push, source validation, title
    resolution, the fetch for remote jobs and locating the fetched
    file.  The value is the input path and title for conversion. -/
def tryPhase (env : DlEnv) (args : DlArgs) (ts : Nat) (isLocalFile : Bool)
    (files : List TempFile) :
    Except String (String × String) × List TempFile × List Effect :=
  let phaseEff := Effect.phase (if isLocalFile then "converting" else "downloading")
  if isLocalFile then
    match validateLocalFilePath env.cfg env.statOf args.sourceFilePath with
    | .error e => (.error e, files, [phaseEff])
    | .ok dfp =>
      let videoTitle :=
        match args.title with
        | some t =>
          if jsTrim t ≠ "" then sanitizeFilename (jsTrim t)
          else localTitleFallback dfp
        | none => localTitleFallback dfp
      (.ok (dfp, videoTitle), files, [phaseEff])
  else
    match jsValidateUrl args.url with
    | .error e => (.error e, files, [phaseEff])
    | .ok _ =>
      let tEffs :=
        match args.title with
        | some t =>
          if jsTrim t ≠ "" then (sanitizeFilename (jsTrim t), ([] : List Effect))
          else remoteTitle env
        | none => remoteTitle env
      if !env.fetchOk then
        (.error env.fetchErr, files, phaseEff :: tEffs.2 ++ [.spawnFetch])
      else
        let files1 :=
          match env.fetchedExt with
          | some ext => writeTemp (videoPrefFor ts ++ ext) env.fetchMtime files
          | none => files
        match findDownloadedFile ts files1 with
        | some f =>
          (.ok (f.name, tEffs.1), files1, phaseEff :: tEffs.2 ++ [.spawnFetch])
        | none =>
          (.error "Downloaded file not found", files1,
           phaseEff :: tEffs.2 ++ [.spawnFetch])

/-- Translation of the download-mp3 handler (src/main.js lines 486-665):
    sender gate; parameter validation before the try block; the
    try-block acquisition phase whose errors are caught, swept by
    timestamp and rethrown unchanged; then the returned conversion
    promise, whose rejections reach the caller without the sweep. -/
def downloadMp3Handler (st : AppState) (event : IpcEvent) (args : DlArgs)
    (ts : Nat) (env : DlEnv) (files : List TempFile) :
    Except String SaveResult × List TempFile × List Effect :=
  if !isAllowedSender st event then (.error "Unauthorized", files, [])
  else
    let isLocalFile :=
      match args.sourceFilePath with
      | some s => jsTrim s ≠ ""
      | none => false
    match validateDownloadParams ⟨args.startTime, args.endTime, args.playbackSpeed⟩ with
    | .error e => (.error e, files, [])
    | .ok vp =>
      match tryPhase env args ts isLocalFile files with
      | (.error e, files1, effs) => (.error e, sweepTemp ts files1, effs)
      | (.ok (dfp, videoTitle), files1, effs) =>
        match conversionPhase env ts vp isLocalFile dfp videoTitle files1 with
        | (r, files2, effs2) =>
          (r, files2, effs ++ [.phase "converting"] ++ effs2)

/-! Concrete scenario values used to evaluate the model. -/

/-- A registered main window whose webContents handle is 0. -/
def mainState0 : AppState :=
  ⟨some ⟨⟨0⟩, false⟩, false⟩

/-- An event from the main window itself, showing the packaged UI. -/
def mainEvent0 : IpcEvent :=
  ⟨⟨⟨0⟩, "file:///opt/app/dist/index.html"⟩⟩

/-- An event whose sender handle differs from the main window even
    though its loaded URL matches the allowed origin. -/
def rogueEvent0 : IpcEvent :=
  ⟨⟨⟨1⟩, "file:///opt/app/dist/index.html"⟩⟩

def pathCfg0 : PathConfig :=
  ⟨"/Users/u", some "/Users/u/Library/Application Support/snippet/temp", true⟩

/-- A configuration whose only allowed base is the home directory. -/
def pathCfgHome : PathConfig :=
  ⟨"/Users/u", none, false⟩

/-- A remote job request with an explicit title and no trim or speed. -/
def dlArgs0 : DlArgs :=
  ⟨some "http://example.com", none, some "My Title", .undef, .undef, .undef⟩

/-- An environment where fetch and transcode succeed and the user saves
    to the downloads folder. -/
def dlEnv0 : DlEnv :=
  ⟨pathCfg0, fun _ => .fileR, .ok ⟨some 10, some "My Song"⟩, true,
   "fetch failed", some ".m4a", 5, true, "ffmpeg failed", false, 7, 10, true,
   some "/Users/u/Downloads/out.mp3"⟩

/-- The same environment except the main window is gone when the
    conversion finishes. -/
def dlEnvWindowGone : DlEnv :=
  { dlEnv0 with windowAliveAtEnd := false }

/-- The long input of the length-check counterexample: a valid short URL
    padded with 2031 trailing spaces to exceed 2048 characters. -/
def padded2049 : String :=
  "http://example.com" ++ String.mk (List.replicate 2031 ' ')

/-! Helper lemmas. -/

theorem checkTimeField_ok (msg : String) (v : JSVal) (q : Rat)
    (h1 : v ≠ .undef) (h2 : v ≠ .nullv) (h3 : v ≠ .strv "")
    (hn : jsToNumber v = some q) (hq0 : 0 ≤ q) (hq1 : q ≤ 604800) :
    checkTimeField msg v = .ok (some q) := by
  have hm : ((MAX_DURATION_SECONDS : Nat) : Rat) = 604800 := by
    norm_num [MAX_DURATION_SECONDS]
  unfold checkTimeField
  rw [if_pos ⟨h1, h2, h3⟩]
  simp only [hn]
  rw [if_neg (by push_neg; exact ⟨hq0, by rw [hm]; exact hq1⟩)]

theorem checkSpeedField_ok (v : JSVal) (q : Rat) (h1 : v ≠ .undef)
    (h2 : v ≠ .nullv) (hv : v ≠ .numv 1) (hn : jsToNumber v = some q)
    (hq0 : (1 / 4 : Rat) ≤ q) (hq1 : q ≤ 4) :
    checkSpeedField v = .ok (some q) := by
  unfold checkSpeedField
  rw [if_pos ⟨h1, h2, hv⟩]
  simp only [hn]
  rw [if_neg (by push_neg; exact ⟨hq0, hq1⟩)]

theorem validateDownloadParams_start_ok (v : JSVal) (q : Rat)
    (h1 : v ≠ .undef) (h2 : v ≠ .nullv) (h3 : v ≠ .strv "")
    (hn : jsToNumber v = some q) (hq0 : 0 ≤ q) (hq1 : q ≤ 604800) :
    validateDownloadParams ⟨v, .undef, .undef⟩ = .ok ⟨some q, none, none⟩ := by
  unfold validateDownloadParams
  rw [checkTimeField_ok _ v q h1 h2 h3 hn hq0 hq1]
  rfl

theorem validateDownloadParams_end_ok (v : JSVal) (q : Rat)
    (h1 : v ≠ .undef) (h2 : v ≠ .nullv) (h3 : v ≠ .strv "")
    (hn : jsToNumber v = some q) (hq0 : 0 ≤ q) (hq1 : q ≤ 604800) :
    validateDownloadParams ⟨.undef, v, .undef⟩ = .ok ⟨none, some q, none⟩ := by
  unfold validateDownloadParams
  rw [checkTimeField_ok _ v q h1 h2 h3 hn hq0 hq1]
  rfl

theorem checkSpeedField_reject_range (v : JSVal) (q : Rat) (h1 : v ≠ .undef)
    (h2 : v ≠ .nullv) (hv : v ≠ .numv 1) (hn : jsToNumber v = some q)
    (h : q < (1 / 4 : Rat) ∨ (4 : Rat) < q) :
    checkSpeedField v = .error "Playback speed must be between 0.25 and 4" := by
  unfold checkSpeedField
  rw [if_pos ⟨h1, h2, hv⟩]
  simp only [hn]
  rw [if_pos h]

theorem validateDownloadParams_speed_err (v : JSVal) (e : String)
    (h : checkSpeedField v = .error e) :
    validateDownloadParams ⟨.undef, .undef, v⟩ = .error e := by
  unfold validateDownloadParams
  rw [h]
  rfl

theorem validateDownloadParams_speed_ok (v : JSVal) (q : Rat)
    (h1 : v ≠ .undef) (h2 : v ≠ .nullv) (hn : jsToNumber v = some q)
    (hq0 : (1 / 4 : Rat) ≤ q) (hq1 : q ≤ 4) :
    validateDownloadParams ⟨.undef, .undef, v⟩ =
      .ok ⟨none, none, if v = JSVal.numv 1 then none else some q⟩ := by
  by_cases hv : v = JSVal.numv 1
  · subst hv
    rw [if_pos rfl]
    decide
  · rw [if_neg hv]
    unfold validateDownloadParams
    rw [checkSpeedField_ok v q h1 h2 hv hn hq0 hq1]
    rfl

theorem dropWhile_replicate_space (n : Nat) (l : List Char) :
    List.dropWhile isJsSpace (List.replicate n ' ' ++ l) =
      List.dropWhile isJsSpace l := by
  induction n with
  | zero => simp
  | succ k ih =>
    rw [List.replicate_succ, List.cons_append,
      List.dropWhile_cons_of_pos (by decide)]
    exact ih

theorem jsTrimList_replicate (n : Nat) (c : Char) (h : isJsSpace c = false) :
    jsTrimList (List.replicate n c) = List.replicate n c := by
  cases n with
  | zero => rfl
  | succ k =>
    unfold jsTrimList
    rw [List.replicate_succ, List.dropWhile_cons_of_neg (by simp [h]),
      ← List.replicate_succ, List.reverse_replicate]
    rw [List.replicate_succ, List.dropWhile_cons_of_neg (by simp [h]),
      ← List.replicate_succ, List.reverse_replicate]

theorem jsTrimList_pad (l : List Char) (n : Nat)
    (h1 : ∀ c, l.head? = some c → isJsSpace c = false)
    (h2 : ∀ c, l.getLast? = some c → isJsSpace c = false) :
    jsTrimList (l ++ List.replicate n ' ') = l := by
  cases l with
  | nil =>
    simp only [List.nil_append]
    have hd : List.dropWhile isJsSpace (List.replicate n ' ') = [] := by
      have h := dropWhile_replicate_space n []
      simpa using h
    unfold jsTrimList
    rw [hd]
    rfl
  | cons a t =>
    unfold jsTrimList
    rw [List.cons_append, List.dropWhile_cons_of_neg (by simp [h1 a rfl]),
      ← List.cons_append, List.reverse_append, List.reverse_replicate,
      dropWhile_replicate_space]
    cases hr : (a :: t).reverse with
    | nil => simp at hr
    | cons b r =>
      have hb : isJsSpace b = false := by
        apply h2
        rw [← List.head?_reverse, hr]
        rfl
      rw [List.dropWhile_cons_of_neg (by simp [hb]), ← hr, List.reverse_reverse]

theorem jsTrim_pad (u : String) (n : Nat)
    (h1 : ∀ c, u.toList.head? = some c → isJsSpace c = false)
    (h2 : ∀ c, u.toList.getLast? = some c → isJsSpace c = false) :
    jsTrim (u ++ String.mk (List.replicate n ' ')) = u := by
  unfold jsTrim
  have he : (u ++ String.mk (List.replicate n ' ')).toList =
      u.toList ++ List.replicate n ' ' := rfl
  rw [he, jsTrimList_pad u.toList n h1 h2]
  cases u
  rfl

theorem validateUrl_trim_congr (s t : String) (hs : s ≠ "")
    (h1 : jsTrim s = t) (h2 : jsTrim t = t) :
    validateUrl s = validateUrl t := by
  unfold validateUrl
  rw [if_neg hs, h1, h2]
  by_cases ht : t = ""
  · rw [if_pos ht]
    subst ht
    rfl
  · rw [if_neg ht, if_neg ht]

/-- Adjacent characters are not both whitespace. -/
def wsApart (a b : Char) : Prop :=
  ¬(isJsSpace a = true ∧ isJsSpace b = true)

theorem mem_collapseWsAux (m : List Char) :
    ∀ (b : Bool) (c : Char), c ∈ collapseWsAux b m →
      (c ∈ m ∧ isJsSpace c = false) ∨ c = ' ' := by
  induction m with
  | nil => intro b c h; simp [collapseWsAux] at h
  | cons a t ih =>
    intro b c h
    unfold collapseWsAux at h
    by_cases ha : isJsSpace a = true
    · rw [if_pos ha] at h
      by_cases hb : b
      · subst hb
        rw [if_pos rfl] at h
        rcases ih true c h with ⟨h1, h2⟩ | h1
        · exact Or.inl ⟨List.mem_cons_of_mem a h1, h2⟩
        · exact Or.inr h1
      · rw [if_neg hb] at h
        rcases List.mem_cons.mp h with h1 | h1
        · exact Or.inr h1
        · rcases ih true c h1 with ⟨h2, h3⟩ | h2
          · exact Or.inl ⟨List.mem_cons_of_mem a h2, h3⟩
          · exact Or.inr h2
    · rw [if_neg ha] at h
      rcases List.mem_cons.mp h with h1 | h1
      · subst h1
        exact Or.inl ⟨List.mem_cons_self _ _, by simpa using ha⟩
      · rcases ih false c h1 with ⟨h2, h3⟩ | h2
        · exact Or.inl ⟨List.mem_cons_of_mem a h2, h3⟩
        · exact Or.inr h2

theorem collapseWsAux_true_head (m : List Char) :
    collapseWsAux true m = [] ∨
    ∃ c t, collapseWsAux true m = c :: t ∧ isJsSpace c = false := by
  induction m with
  | nil => exact Or.inl rfl
  | cons a t ih =>
    unfold collapseWsAux
    by_cases ha : isJsSpace a = true
    · rw [if_pos ha, if_pos rfl]
      exact ih
    · rw [if_neg ha]
      exact Or.inr ⟨a, collapseWsAux false t, rfl, by simpa using ha⟩

theorem chain'_collapseWsAux (m : List Char) :
    ∀ b : Bool, List.Chain' wsApart (collapseWsAux b m) := by
  induction m with
  | nil => intro b; simp [collapseWsAux]
  | cons a t ih =>
    intro b
    unfold collapseWsAux
    by_cases ha : isJsSpace a = true
    · rw [if_pos ha]
      by_cases hb : b
      · rw [if_pos hb]
        exact ih true
      · rw [if_neg hb]
        apply List.chain'_cons'.mpr
        refine ⟨fun y hy => ?_, ih true⟩
        rcases collapseWsAux_true_head t with h1 | ⟨c, t2, h1, h2⟩
        · rw [h1] at hy; simp at hy
        · rw [h1] at hy
          simp at hy
          subst hy
          intro hcon
          rw [h2] at hcon
          exact absurd hcon.2 (by simp)
    · rw [if_neg ha]
      apply List.chain'_cons'.mpr
      refine ⟨fun y hy => ?_, ih false⟩
      intro hcon
      exact absurd hcon.1 (by simpa using ha)

theorem collapseWsAux_flag_eq (t : List Char)
    (h : ∀ c, t.head? = some c → isJsSpace c = false) :
    collapseWsAux true t = collapseWsAux false t := by
  cases t with
  | nil => rfl
  | cons a r =>
    have ha : isJsSpace a = false := h a rfl
    unfold collapseWsAux
    rw [if_neg (by simp [ha]), if_neg (by simp [ha])]

theorem collapseWs_fix (l : List Char)
    (h1 : ∀ c ∈ l, isJsSpace c = true → c = ' ')
    (h2 : List.Chain' wsApart l) :
    collapseWsAux false l = l := by
  induction l with
  | nil => rfl
  | cons a t ih =>
    unfold collapseWsAux
    by_cases ha : isJsSpace a = true
    · rw [if_pos ha]
      have haSp : a = ' ' := h1 a (List.mem_cons_self a t) ha
      have hth : ∀ c, t.head? = some c → isJsSpace c = false := by
        intro c hc
        have hr := (List.chain'_cons'.mp h2).1 c hc
        unfold wsApart at hr
        cases hs : isJsSpace c with
        | false => rfl
        | true => exact absurd ⟨ha, hs⟩ hr
      rw [collapseWsAux_flag_eq t hth,
        ih (fun c hc hcs => h1 c (List.mem_cons_of_mem a hc) hcs)
           (List.Chain'.tail h2), haSp]
      simp
    · rw [if_neg ha]
      rw [ih (fun c hc hcs => h1 c (List.mem_cons_of_mem a hc) hcs)
           (List.Chain'.tail h2)]

theorem chain'_dropWhile {R : Char → Char → Prop} (p : Char → Bool)
    (l : List Char) (h : List.Chain' R l) :
    List.Chain' R (List.dropWhile p l) := by
  induction l with
  | nil => simp
  | cons a t ih =>
    rw [List.dropWhile_cons]
    by_cases hp : p a = true
    · rw [if_pos hp]
      exact ih (List.Chain'.tail h)
    · rw [if_neg hp]
      exact h

theorem chain'_wsApart_reverse (l : List Char)
    (h : List.Chain' wsApart l) : List.Chain' wsApart l.reverse := by
  rw [List.chain'_reverse]
  exact h.imp fun a b hab => by unfold wsApart flip at *; tauto

theorem trimRightIsPref (p : Char → Bool) (A : List Char) :
    (List.dropWhile p A.reverse).reverse <+: A := by
  have h2 := List.reverse_prefix.mpr (List.dropWhile_suffix (l := A.reverse) p)
  rwa [List.reverse_reverse] at h2

theorem head?_dropWhile_not (p : Char → Bool) (l : List Char) :
    ∀ c, (List.dropWhile p l).head? = some c → p c = false := by
  induction l with
  | nil => intro c h; simp at h
  | cons a t ih =>
    intro c h
    rw [List.dropWhile_cons] at h
    by_cases hp : p a = true
    · rw [if_pos hp] at h
      exact ih c h
    · rw [if_neg hp] at h
      simp only [List.head?_cons, Option.some.injEq] at h
      rw [← h]
      simpa using hp

theorem head_nonws_of_jsTrimList (m : List Char) (c : Char) (t : List Char)
    (h : jsTrimList m = c :: t) : isJsSpace c = false := by
  have hpre : jsTrimList m <+: List.dropWhile isJsSpace m :=
    trimRightIsPref isJsSpace (List.dropWhile isJsSpace m)
  rw [h] at hpre
  obtain ⟨r, hr⟩ := hpre
  apply head?_dropWhile_not isJsSpace m c
  rw [← hr]
  rfl

theorem mem_jsTrimList (m : List Char) (c : Char) (h : c ∈ jsTrimList m) :
    c ∈ m := by
  unfold jsTrimList at h
  rw [List.mem_reverse] at h
  have h2 := List.Sublist.mem h (List.dropWhile_sublist isJsSpace)
  rw [List.mem_reverse] at h2
  exact List.Sublist.mem h2 (List.dropWhile_sublist isJsSpace)

theorem chain'_jsTrimList (m : List Char) (h : List.Chain' wsApart m) :
    List.Chain' wsApart (jsTrimList m) :=
  chain'_wsApart_reverse _ (chain'_dropWhile _ _
    (chain'_wsApart_reverse _ (chain'_dropWhile _ _ h)))

theorem jsTrimList_fix (l : List Char)
    (hh : ∀ c t, l = c :: t → isJsSpace c = false)
    (hl : ∀ c, l.getLast? = some c → isJsSpace c = false) :
    jsTrimList l = l := by
  cases l with
  | nil => rfl
  | cons a t =>
    unfold jsTrimList
    rw [List.dropWhile_cons_of_neg (by simp [hh a t rfl])]
    cases hr : (a :: t).reverse with
    | nil => simp at hr
    | cons b r =>
      have hb : isJsSpace b = false := by
        apply hl
        rw [← List.head?_reverse, hr]
        rfl
      rw [List.dropWhile_cons_of_neg (by simp [hb]), ← hr,
        List.reverse_reverse]

theorem mk_eq_empty_iff (l : List Char) : String.mk l = "" ↔ l = [] := by
  constructor
  · intro h
    exact congrArg String.data h
  · intro h
    rw [h]

theorem collapseWs_fix_full (l : List Char)
    (h1 : ∀ c ∈ l, isJsSpace c = true → c = ' ')
    (h2 : List.Chain' wsApart l) : collapseWs l = l :=
  collapseWs_fix l h1 h2

theorem sanitizeFilename_fix (L : List Char) (hne : L ≠ [])
    (hbad : ∀ c ∈ L, badFilenameChar c = false)
    (hws : ∀ c ∈ L, isJsSpace c = true → c = ' ')
    (hch : List.Chain' wsApart L)
    (hhead : ∀ c t, L = c :: t → isJsSpace c = false)
    (hlast : L.getLast? ≠ some ' ')
    (hlen : L.length ≤ 200) :
    sanitizeFilename (String.mk L) = String.mk L := by
  have hstrip : stripBad L = L := by
    apply List.filter_eq_self.mpr
    intro a ha
    simp [hbad a ha]
  have hlast2 : ∀ c, L.getLast? = some c → isJsSpace c = false := by
    intro c hc
    cases hs : isJsSpace c with
    | false => rfl
    | true =>
      have hmem : c ∈ L := by
        rw [← List.head?_reverse] at hc
        have := List.mem_of_mem_head? hc
        rwa [List.mem_reverse] at this
      rw [hws c hmem hs] at hc
      exact absurd hc hlast
  have htrim : jsTrimList L = L := jsTrimList_fix L hhead hlast2
  have hcoll : collapseWs L = L := collapseWs_fix_full L hws hch
  unfold sanitizeFilename
  rw [if_neg (fun hcon => hne ((mk_eq_empty_iff L).mp hcon))]
  rw [show (String.mk L).toList = L from rfl, hstrip, hcoll, htrim,
    List.take_of_length_le hlen]
  rw [if_neg (fun hcon => hne ((mk_eq_empty_iff L).mp hcon))]

theorem takeWhile_append_all (p : Char → Bool) (l1 l2 : List Char)
    (h1 : ∀ c ∈ l1, p c = true)
    (h2 : l2 = [] ∨ ∃ c t, l2 = c :: t ∧ p c = false) :
    List.takeWhile p (l1 ++ l2) = l1 := by
  induction l1 with
  | nil =>
    rcases h2 with h | ⟨c, t, hct, hc⟩
    · rw [h]; rfl
    · rw [hct]
      simp [List.takeWhile_cons, hc]
  | cons a t ih =>
    rw [List.cons_append, List.takeWhile_cons_of_pos (h1 a (List.mem_cons_self a t))]
    rw [ih (fun c hc => h1 c (List.mem_cons_of_mem a hc))]

theorem dropWhile_append_rest (p : Char → Bool) (l1 l2 : List Char)
    (h1 : ∀ c ∈ l1, p c = true)
    (h2 : l2 = [] ∨ ∃ c t, l2 = c :: t ∧ p c = false) :
    List.dropWhile p (l1 ++ l2) = l2 := by
  induction l1 with
  | nil =>
    rcases h2 with h | ⟨c, t, hct, hc⟩
    · rw [h]; rfl
    · rw [hct]
      simp [List.dropWhile_cons, hc]
  | cons a t ih =>
    rw [List.cons_append, List.dropWhile_cons_of_pos (h1 a (List.mem_cons_self a t))]
    exact ih (fun c hc => h1 c (List.mem_cons_of_mem a hc))

theorem afterLastAt_id (l : List Char) (h : ∀ c ∈ l, c ≠ '@') :
    afterLastAt l = l := by
  unfold afterLastAt
  rw [List.takeWhile_eq_self_iff.mpr ?_, List.reverse_reverse]
  intro c hc
  have := h c (List.mem_reverse.mp hc)
  simpa using this

theorem jsTrimList_eq_self (l : List Char)
    (h : ∀ c ∈ l, isJsSpace c = false) : jsTrimList l = l := by
  apply jsTrimList_fix
  · intro c t hct
    exact h c (by rw [hct]; exact List.mem_cons_self _ _)
  · intro c hc
    apply h
    rw [← List.head?_reverse] at hc
    have := List.mem_of_mem_head? hc
    rwa [List.mem_reverse] at this

theorem charEqOfToNat (c d : Char) (h : c.toNat = d.toNat) : c = d := by
  apply Char.ext
  apply UInt32.ext
  exact h

theorem char_eq_iff (c d : Char) : c = d ↔ c.toNat = d.toNat :=
  ⟨fun x => by rw [x], charEqOfToNat c d⟩

theorem char_le_iff (c d : Char) : c ≤ d ↔ c.toNat ≤ d.toNat := Char.le_def

theorem toNat_ofNat_valid (n : Nat) (h : n < 55296) :
    (Char.ofNat n).toNat = n := by
  unfold Char.ofNat
  rw [dif_pos (Or.inl h)]
  rfl

theorem toLowerC_fix (c : Char) (h : c.toNat < 65 ∨ 90 < c.toNat) :
    toLowerC c = c := by
  unfold toLowerC
  rw [if_neg ?_]
  intro hc
  simp only [Bool.and_eq_true, decide_eq_true_eq] at hc
  rw [char_le_iff, char_le_iff] at hc
  have h1 : (65:Nat) ≤ c.toNat := hc.1
  have h2 : c.toNat ≤ 90 := hc.2
  omega

theorem toLowerC_upper (c : Char) (h1 : 65 ≤ c.toNat) (h2 : c.toNat ≤ 90) :
    (toLowerC c).toNat = c.toNat + 32 := by
  unfold toLowerC
  rw [if_pos ?_]
  · exact toNat_ofNat_valid _ (by omega)
  · simp only [Bool.and_eq_true, decide_eq_true_eq]
    rw [char_le_iff, char_le_iff]
    exact ⟨h1, h2⟩

theorem rangeAlpha_ok (c : Char)
    (h : 65 ≤ c.toNat ∧ c.toNat ≤ 90 ∨ 97 ≤ c.toNat ∧ c.toNat ≤ 122) :
    hostForbidden c = false ∧ isJsSpace c = false := by
  constructor
  · unfold hostForbidden
    simp only [Bool.or_eq_false_iff, decide_eq_false_iff_not, char_eq_iff,
      show (':' : Char).toNat = 58 from rfl, show ('/' : Char).toNat = 47 from rfl,
      show ('?' : Char).toNat = 63 from rfl, show ('#' : Char).toNat = 35 from rfl,
      show ('@' : Char).toNat = 64 from rfl, show ('[' : Char).toNat = 91 from rfl,
      show (']' : Char).toNat = 93 from rfl, show ('\\' : Char).toNat = 92 from rfl,
      show ('%' : Char).toNat = 37 from rfl, show ('<' : Char).toNat = 60 from rfl,
      show ('>' : Char).toNat = 62 from rfl, show ('^' : Char).toNat = 94 from rfl,
      show ('|' : Char).toNat = 124 from rfl]
    omega
  · unfold isJsSpace
    simp only [Bool.or_eq_false_iff, decide_eq_false_iff_not, char_eq_iff,
      Bool.and_eq_false_iff,
      show (' ' : Char).toNat = 32 from rfl, show ('\t' : Char).toNat = 9 from rfl,
      show ('\n' : Char).toNat = 10 from rfl, show ('\r' : Char).toNat = 13 from rfl]
    omega

theorem digitDot_ok (c : Char)
    (h : 48 ≤ c.toNat ∧ c.toNat ≤ 57 ∨ c.toNat = 46) :
    hostForbidden c = false ∧ isJsSpace c = false ∧ toLowerC c = c := by
  refine ⟨?_, ?_, toLowerC_fix c (by omega)⟩
  · unfold hostForbidden
    simp only [Bool.or_eq_false_iff, decide_eq_false_iff_not, char_eq_iff,
      show (':' : Char).toNat = 58 from rfl, show ('/' : Char).toNat = 47 from rfl,
      show ('?' : Char).toNat = 63 from rfl, show ('#' : Char).toNat = 35 from rfl,
      show ('@' : Char).toNat = 64 from rfl, show ('[' : Char).toNat = 91 from rfl,
      show (']' : Char).toNat = 93 from rfl, show ('\\' : Char).toNat = 92 from rfl,
      show ('%' : Char).toNat = 37 from rfl, show ('<' : Char).toNat = 60 from rfl,
      show ('>' : Char).toNat = 62 from rfl, show ('^' : Char).toNat = 94 from rfl,
      show ('|' : Char).toNat = 124 from rfl]
    omega
  · unfold isJsSpace
    simp only [Bool.or_eq_false_iff, decide_eq_false_iff_not, char_eq_iff,
      Bool.and_eq_false_iff,
      show (' ' : Char).toNat = 32 from rfl, show ('\t' : Char).toNat = 9 from rfl,
      show ('\n' : Char).toNat = 10 from rfl, show ('\r' : Char).toNat = 13 from rfl]
    omega

theorem isDigitC_toNat (c : Char) (h : isDigitC c = true) :
    48 ≤ c.toNat ∧ c.toNat ≤ 57 := by
  unfold isDigitC at h
  simp only [Bool.and_eq_true, decide_eq_true_eq] at h
  rw [char_le_iff, char_le_iff] at h
  exact h

theorem hostForbidden_colon : hostForbidden ':' = true := by decide

theorem ne_colon_of_hostOk (c : Char) (h : hostForbidden c = false) : c ≠ ':' := by
  intro he
  subst he
  exact absurd h (by decide)

theorem ne_at_of_hostOk (c : Char) (h : hostForbidden c = false) : c ≠ '@' := by
  intro he
  subst he
  exact absurd h (by decide)

theorem authEnd_false_of_hostOk (c : Char) (h : hostForbidden c = false) :
    isAuthEnd c = false := by
  cases hae : isAuthEnd c with
  | false => rfl
  | true =>
    exfalso
    unfold isAuthEnd at hae
    simp only [Bool.or_eq_true, decide_eq_true_eq] at hae
    rcases hae with (he | he) | he <;> subst he <;> exact absurd h (by decide)

theorem parseHostPort_plain (scheme hl : List Char) (hne : hl ≠ [])
    (hok : ∀ c ∈ hl, hostForbidden c = false)
    (hnum : endsInNumber (hl.map toLowerC) = false) :
    parseHostPort scheme hl =
      some ⟨String.mk (scheme.map toLowerC) ++ ":",
            String.mk (hl.map toLowerC)⟩ := by
  cases hl with
  | nil => exact absurd rfl hne
  | cons a t =>
    have hhost : (a :: t).takeWhile (fun c => c ≠ ':') = a :: t := by
      apply List.takeWhile_eq_self_iff.mpr
      intro c hc
      simp only [decide_eq_true_eq]
      exact ne_colon_of_hostOk c (hok c hc)
    have hport : (a :: t).dropWhile (fun c => c ≠ ':') = [] := by
      apply List.dropWhile_eq_nil_iff.mpr
      intro c hc
      simp only [decide_eq_true_eq]
      exact ne_colon_of_hostOk c (hok c hc)
    have hbr : (a :: t).headD ' ' ≠ '[' := by
      simp only [List.headD_cons]
      intro he
      subst he
      exact absurd (hok '[' (List.mem_cons_self _ _)) (by decide)
    unfold parseHostPort
    rw [if_neg hbr]
    simp only [hhost, hport]
    rw [if_neg (by simp), if_neg ?hforb, if_pos ?hport2, if_neg ?hnum2]
    case hport2 => rfl
    case hnum2 =>
      intro hc
      rw [hnum] at hc
      exact Bool.noConfusion hc
    case hforb =>
      simp only [List.any_eq_true, not_exists]
      intro c hc
      obtain ⟨h1, h2⟩ := hc
      rw [hok c h1] at h2
      simp at h2

theorem parseHostPort_num (scheme hl : List Char) (n : Nat) (hne : hl ≠ [])
    (hok : ∀ c ∈ hl, hostForbidden c = false)
    (hnum : endsInNumber (hl.map toLowerC) = true)
    (hip : ipv4Parse (hl.map toLowerC) = some n) :
    parseHostPort scheme hl =
      some ⟨String.mk (scheme.map toLowerC) ++ ":",
            String.mk (serializeIPv4 n)⟩ := by
  cases hl with
  | nil => exact absurd rfl hne
  | cons a t =>
    have hhost : (a :: t).takeWhile (fun c => c ≠ ':') = a :: t := by
      apply List.takeWhile_eq_self_iff.mpr
      intro c hc
      simp only [decide_eq_true_eq]
      exact ne_colon_of_hostOk c (hok c hc)
    have hport : (a :: t).dropWhile (fun c => c ≠ ':') = [] := by
      apply List.dropWhile_eq_nil_iff.mpr
      intro c hc
      simp only [decide_eq_true_eq]
      exact ne_colon_of_hostOk c (hok c hc)
    have hbr : (a :: t).headD ' ' ≠ '[' := by
      simp only [List.headD_cons]
      intro he
      subst he
      exact absurd (hok '[' (List.mem_cons_self _ _)) (by decide)
    unfold parseHostPort
    rw [if_neg hbr]
    simp only [hhost, hport]
    rw [if_neg (by simp), if_neg ?hforb, if_pos ?hport2, if_pos hnum]
    case hport2 => rfl
    case hforb =>
      simp only [List.any_eq_true, not_exists]
      intro c hc
      obtain ⟨h1, h2⟩ := hc
      rw [hok c h1] at h2
      simp at h2
    simp only [hip]

theorem parseHostPort_colon_head (scheme rest : List Char) :
    parseHostPort scheme (':' :: rest) = none := by
  unfold parseHostPort
  rw [if_neg ?hx]
  case hx =>
    rw [List.headD_cons]
    decide
  simp [List.takeWhile_cons]

theorem auth_split (hl suffix : List Char)
    (hok : ∀ c ∈ hl, hostForbidden c = false)
    (hsuf : suffix = [] ∨ ∃ c t, suffix = c :: t ∧ isAuthEnd c = true) :
    List.takeWhile (fun c => !isAuthEnd c) (hl ++ suffix) = hl := by
  apply takeWhile_append_all
  · intro c hc
    rw [authEnd_false_of_hostOk c (hok c hc)]
    rfl
  · rcases hsuf with h | ⟨c, t, hct, hc⟩
    · exact Or.inl h
    · exact Or.inr ⟨c, t, hct, by rw [hc]; rfl⟩

theorem parseUrl_http_host (hl suffix : List Char) (hne : hl ≠ [])
    (hok : ∀ c ∈ hl, hostForbidden c = false)
    (hsuf : suffix = [] ∨ ∃ c t, suffix = c :: t ∧ isAuthEnd c = true)
    (hnum : endsInNumber (hl.map toLowerC) = false) :
    parseUrlList ('h' :: 't' :: 't' :: 'p' :: ':' :: '/' :: '/' :: (hl ++ suffix)) =
      some ⟨"http:", String.mk (hl.map toLowerC)⟩ := by
  have hat : afterLastAt hl = hl :=
    afterLastAt_id hl (fun c hc => ne_at_of_hostOk c (hok c hc))
  show parseHostPort ['h', 't', 't', 'p']
    (afterLastAt (List.takeWhile (fun c => !isAuthEnd c) (hl ++ suffix))) = _
  rw [auth_split hl suffix hok hsuf, hat,
    parseHostPort_plain ['h', 't', 't', 'p'] hl hne hok hnum]
  rfl

theorem parseUrl_http_num (hl suffix : List Char) (n : Nat) (hne : hl ≠ [])
    (hok : ∀ c ∈ hl, hostForbidden c = false)
    (hsuf : suffix = [] ∨ ∃ c t, suffix = c :: t ∧ isAuthEnd c = true)
    (hnum : endsInNumber (hl.map toLowerC) = true)
    (hip : ipv4Parse (hl.map toLowerC) = some n) :
    parseUrlList ('h' :: 't' :: 't' :: 'p' :: ':' :: '/' :: '/' :: (hl ++ suffix)) =
      some ⟨"http:", String.mk (serializeIPv4 n)⟩ := by
  have hat : afterLastAt hl = hl :=
    afterLastAt_id hl (fun c hc => ne_at_of_hostOk c (hok c hc))
  show parseHostPort ['h', 't', 't', 'p']
    (afterLastAt (List.takeWhile (fun c => !isAuthEnd c) (hl ++ suffix))) = _
  rw [auth_split hl suffix hok hsuf, hat,
    parseHostPort_num ['h', 't', 't', 'p'] hl n hne hok hnum hip]
  rfl

theorem parseUrl_https_host (hl suffix : List Char) (hne : hl ≠ [])
    (hok : ∀ c ∈ hl, hostForbidden c = false)
    (hsuf : suffix = [] ∨ ∃ c t, suffix = c :: t ∧ isAuthEnd c = true)
    (hnum : endsInNumber (hl.map toLowerC) = false) :
    parseUrlList
        ('h' :: 't' :: 't' :: 'p' :: 's' :: ':' :: '/' :: '/' :: (hl ++ suffix)) =
      some ⟨"https:", String.mk (hl.map toLowerC)⟩ := by
  have hat : afterLastAt hl = hl :=
    afterLastAt_id hl (fun c hc => ne_at_of_hostOk c (hok c hc))
  show parseHostPort ['h', 't', 't', 'p', 's']
    (afterLastAt (List.takeWhile (fun c => !isAuthEnd c) (hl ++ suffix))) = _
  rw [auth_split hl suffix hok hsuf, hat,
    parseHostPort_plain ['h', 't', 't', 'p', 's'] hl hne hok hnum]
  rfl

theorem parseUrl_https_num (hl suffix : List Char) (n : Nat) (hne : hl ≠ [])
    (hok : ∀ c ∈ hl, hostForbidden c = false)
    (hsuf : suffix = [] ∨ ∃ c t, suffix = c :: t ∧ isAuthEnd c = true)
    (hnum : endsInNumber (hl.map toLowerC) = true)
    (hip : ipv4Parse (hl.map toLowerC) = some n) :
    parseUrlList
        ('h' :: 't' :: 't' :: 'p' :: 's' :: ':' :: '/' :: '/' :: (hl ++ suffix)) =
      some ⟨"https:", String.mk (serializeIPv4 n)⟩ := by
  have hat : afterLastAt hl = hl :=
    afterLastAt_id hl (fun c hc => ne_at_of_hostOk c (hok c hc))
  show parseHostPort ['h', 't', 't', 'p', 's']
    (afterLastAt (List.takeWhile (fun c => !isAuthEnd c) (hl ++ suffix))) = _
  rw [auth_split hl suffix hok hsuf, hat,
    parseHostPort_num ['h', 't', 't', 'p', 's'] hl n hne hok hnum hip]
  rfl

theorem parseUrl_http_ipv6ish (hl : List Char)
    (hstart : ∃ t, hl = ':' :: t)
    (hsafe : ∀ c ∈ hl, isAuthEnd c = false ∧ c ≠ '@') :
    parseUrlList ('h' :: 't' :: 't' :: 'p' :: ':' :: '/' :: '/' :: hl) = none := by
  obtain ⟨t, ht⟩ := hstart
  have hauth : List.takeWhile (fun c => !isAuthEnd c) hl = hl := by
    apply List.takeWhile_eq_self_iff.mpr
    intro c hc
    rw [(hsafe c hc).1]
    rfl
  have hat : afterLastAt hl = hl :=
    afterLastAt_id hl (fun c hc => (hsafe c hc).2)
  show parseHostPort ['h', 't', 't', 'p']
    (afterLastAt (List.takeWhile (fun c => !isAuthEnd c) hl)) = none
  rw [hauth, hat, ht, parseHostPort_colon_head]

theorem mem_http_prefix_cases (h : String) (c : Char)
    (hc : c ∈ ('h' :: 't' :: 't' :: 'p' :: ':' :: '/' :: '/' :: h.toList)) :
    c = 'h' ∨ c = 't' ∨ c = 'p' ∨ c = ':' ∨ c = '/' ∨ c ∈ h.toList := by
  simp only [List.mem_cons] at hc
  tauto

theorem validateUrl_http_result (h : String) (hne : h.toList ≠ [])
    (hok : ∀ c ∈ h.toList, hostForbidden c = false)
    (hws : ∀ c ∈ h.toList, isJsSpace c = false)
    (hlen : h.length ≤ 2041)
    (hnum : endsInNumber (h.toList.map toLowerC) = false) :
    validateUrl ("http://" ++ h) =
      if blockedHosts.contains (toLowerStr (String.mk (h.toList.map toLowerC))) then
        .error "Localhost URLs are not allowed"
      else if privateRegexTest (String.mk (h.toList.map toLowerC)) then
        .error "Private network URLs are not allowed"
      else if isLoopbackOrPrivateIP (String.mk (h.toList.map toLowerC)) then
        .error "Localhost and private network URLs are not allowed"
      else .ok ("http://" ++ h) := by
  have hform : ("http://" ++ h).toList =
      'h' :: 't' :: 't' :: 'p' :: ':' :: '/' :: '/' :: h.toList := rfl
  have hne2 : "http://" ++ h ≠ "" := by
    intro he
    have h2 := congrArg String.toList he
    rw [hform] at h2
    exact List.noConfusion h2
  have htrim : jsTrim ("http://" ++ h) = "http://" ++ h := by
    show String.mk (jsTrimList ("http://" ++ h).toList) = _
    rw [hform, jsTrimList_eq_self]
    · rfl
    · intro c hc
      rcases mem_http_prefix_cases h c hc with h1 | h1 | h1 | h1 | h1 | h1
      · rw [h1]; decide
      · rw [h1]; decide
      · rw [h1]; decide
      · rw [h1]; decide
      · rw [h1]; decide
      · exact hws c h1
  have hlen2 : ¬(MAX_URL_LENGTH < ("http://" ++ h).length) := by
    rw [String.length_append]
    have h7 : "http://".length = 7 := rfl
    unfold MAX_URL_LENGTH
    omega
  have hparse : parseUrlList ("http://" ++ h).toList =
      some ⟨"http:", String.mk (h.toList.map toLowerC)⟩ := by
    rw [hform]
    have hp := parseUrl_http_host h.toList [] hne hok (Or.inl rfl) hnum
    rwa [List.append_nil] at hp
  unfold validateUrl
  rw [if_neg hne2, htrim, if_neg hne2, if_neg hlen2, hparse]
  have hred : (decide (("http:" : String) ≠ "http:") &&
      decide (("http:" : String) ≠ "https:")) = false := by decide
  simp only [hred, Bool.false_eq_true, if_false]

theorem validateUrl_http_ipv4num (h : String) (n : Nat) (hne : h.toList ≠ [])
    (hok : ∀ c ∈ h.toList, hostForbidden c = false)
    (hws : ∀ c ∈ h.toList, isJsSpace c = false)
    (hlen : h.length ≤ 2041)
    (hnum : endsInNumber (h.toList.map toLowerC) = true)
    (hip : ipv4Parse (h.toList.map toLowerC) = some n) :
    validateUrl ("http://" ++ h) =
      if blockedHosts.contains (toLowerStr (String.mk (serializeIPv4 n))) then
        .error "Localhost URLs are not allowed"
      else if privateRegexTest (String.mk (serializeIPv4 n)) then
        .error "Private network URLs are not allowed"
      else if isLoopbackOrPrivateIP (String.mk (serializeIPv4 n)) then
        .error "Localhost and private network URLs are not allowed"
      else .ok ("http://" ++ h) := by
  have hform : ("http://" ++ h).toList =
      'h' :: 't' :: 't' :: 'p' :: ':' :: '/' :: '/' :: h.toList := rfl
  have hne2 : "http://" ++ h ≠ "" := by
    intro he
    have h2 := congrArg String.toList he
    rw [hform] at h2
    exact List.noConfusion h2
  have htrim : jsTrim ("http://" ++ h) = "http://" ++ h := by
    show String.mk (jsTrimList ("http://" ++ h).toList) = _
    rw [hform, jsTrimList_eq_self]
    · rfl
    · intro c hc
      rcases mem_http_prefix_cases h c hc with h1 | h1 | h1 | h1 | h1 | h1
      · rw [h1]; decide
      · rw [h1]; decide
      · rw [h1]; decide
      · rw [h1]; decide
      · rw [h1]; decide
      · exact hws c h1
  have hlen2 : ¬(MAX_URL_LENGTH < ("http://" ++ h).length) := by
    rw [String.length_append]
    have h7 : "http://".length = 7 := rfl
    unfold MAX_URL_LENGTH
    omega
  have hparse : parseUrlList ("http://" ++ h).toList =
      some ⟨"http:", String.mk (serializeIPv4 n)⟩ := by
    rw [hform]
    have hp := parseUrl_http_num h.toList [] n hne hok (Or.inl rfl) hnum hip
    rwa [List.append_nil] at hp
  unfold validateUrl
  rw [if_neg hne2, htrim, if_neg hne2, if_neg hlen2, hparse]
  have hred : (decide (("http:" : String) ≠ "http:") &&
      decide (("http:" : String) ≠ "https:")) = false := by decide
  simp only [hred, Bool.false_eq_true, if_false]

theorem octFromDigits_shape (ds : List Char) (v : Nat)
    (h : octFromDigits ds = some v) :
    ds ≠ [] ∧ ds.length ≤ 3 ∧ ∀ c ∈ ds, isDigitC c = true := by
  match ds with
  | [] => exact absurd h (by simp [octFromDigits])
  | [a] =>
    refine ⟨by simp, by simp, ?_⟩
    simp only [octFromDigits] at h
    by_cases ha : isDigitC a = true
    · intro c hc
      simp at hc
      subst hc
      exact ha
    · rw [if_neg ha] at h
      exact absurd h (by simp)
  | [a, b] =>
    simp only [octFromDigits] at h
    by_cases hab : (isDigitC a && a ≠ '0' && isDigitC b) = true
    · simp only [Bool.and_eq_true, decide_eq_true_eq] at hab
      refine ⟨by simp, by simp, ?_⟩
      intro c hc
      simp at hc
      rcases hc with hc | hc <;> subst hc
      · exact hab.1.1
      · exact hab.2
    · rw [if_neg hab] at h
      exact absurd h (by simp)
  | [a, b, c] =>
    simp only [octFromDigits] at h
    by_cases hab : (isDigitC a && a ≠ '0' && isDigitC b && isDigitC c &&
        decide (100 * digitVal a + 10 * digitVal b + digitVal c ≤ 255)) = true
    · simp only [Bool.and_eq_true, decide_eq_true_eq] at hab
      refine ⟨by simp, by simp, ?_⟩
      intro x hx
      simp at hx
      rcases hx with hx | hx | hx <;> subst hx
      · exact hab.1.1.1.1
      · exact hab.1.1.2
      · exact hab.1.2
    · rw [if_neg hab] at h
      exact absurd h (by simp)
  | a :: b :: c :: d :: t => exact absurd h (by simp [octFromDigits])

theorem readOct_split (l : List Char) (v : Nat) (rest : List Char)
    (h : readOct l = some (v, rest)) :
    ∃ ds, l = ds ++ rest ∧ ds ≠ [] ∧ ds.length ≤ 3 ∧
      (∀ c ∈ ds, isDigitC c = true) ∧ octFromDigits ds = some v := by
  unfold readOct at h
  cases ho : octFromDigits (l.takeWhile isDigitC) with
  | none => rw [ho] at h; exact absurd h (by simp)
  | some w =>
    rw [ho] at h
    simp only [Option.some.injEq, Prod.mk.injEq] at h
    obtain ⟨hv, hr⟩ := h
    subst hv
    refine ⟨l.takeWhile isDigitC, ?_, ?_⟩
    · rw [← hr]
      exact (List.takeWhile_append_dropWhile isDigitC l).symm
    · obtain ⟨h1, h2, h3⟩ := octFromDigits_shape _ _ ho
      exact ⟨h1, h2, h3, ho⟩

theorem parseIPv4_split (l : List Char) (a b c d : Nat)
    (h : parseIPv4 l = some (a, b, c, d)) :
    ∃ r1 r2 r3, readOct l = some (a, '.' :: r1) ∧
      readOct r1 = some (b, '.' :: r2) ∧
      readOct r2 = some (c, '.' :: r3) ∧ readOct r3 = some (d, []) := by
  unfold parseIPv4 at h
  split at h
  · rename_i a1 r1 h1
    split at h
    · rename_i b1 r2 h2
      split at h
      · rename_i c1 r3 h3
        split at h
        · rename_i d1 h4
          simp only [Option.some.injEq, Prod.mk.injEq] at h
          obtain ⟨ha, hb, hc, hd⟩ := h
          subst ha; subst hb; subst hc; subst hd
          exact ⟨r1, r2, r3, h1, h2, h3, h4⟩
        · exact absurd h (by simp)
      · exact absurd h (by simp)
    · exact absurd h (by simp)
  · exact absurd h (by simp)

theorem parseIPv4_chars (l : List Char) (a b c d : Nat)
    (h : parseIPv4 l = some (a, b, c, d)) :
    ∀ x ∈ l, isDigitC x = true ∨ x = '.' := by
  obtain ⟨r1, r2, r3, h1, h2, h3, h4⟩ := parseIPv4_split l a b c d h
  obtain ⟨d1, hd1, _, _, hdig1, _⟩ := readOct_split _ _ _ h1
  obtain ⟨d2, hd2, _, _, hdig2, _⟩ := readOct_split _ _ _ h2
  obtain ⟨d3, hd3, _, _, hdig3, _⟩ := readOct_split _ _ _ h3
  obtain ⟨d4, hd4, _, _, hdig4, _⟩ := readOct_split _ _ _ h4
  intro x hx
  rw [hd1] at hx
  rcases List.mem_append.mp hx with hx | hx
  · exact Or.inl (hdig1 x hx)
  · rcases List.mem_cons.mp hx with hx | hx
    · exact Or.inr hx
    · rw [hd2] at hx
      rcases List.mem_append.mp hx with hx | hx
      · exact Or.inl (hdig2 x hx)
      · rcases List.mem_cons.mp hx with hx | hx
        · exact Or.inr hx
        · rw [hd3] at hx
          rcases List.mem_append.mp hx with hx | hx
          · exact Or.inl (hdig3 x hx)
          · rcases List.mem_cons.mp hx with hx | hx
            · exact Or.inr hx
            · rw [hd4, List.append_nil] at hx
              exact Or.inl (hdig4 x hx)

theorem parseIPv4_len (l : List Char) (a b c d : Nat)
    (h : parseIPv4 l = some (a, b, c, d)) : l.length ≤ 15 ∧ l ≠ [] := by
  obtain ⟨r1, r2, r3, h1, h2, h3, h4⟩ := parseIPv4_split l a b c d h
  obtain ⟨d1, hd1, hne1, hl1, _, _⟩ := readOct_split _ _ _ h1
  obtain ⟨d2, hd2, hne2, hl2, _, _⟩ := readOct_split _ _ _ h2
  obtain ⟨d3, hd3, hne3, hl3, _, _⟩ := readOct_split _ _ _ h3
  obtain ⟨d4, hd4, hne4, hl4, _, _⟩ := readOct_split _ _ _ h4
  constructor
  · rw [hd1, hd2] at *
    rw [List.length_append] at *
    simp only [hd1, hd2, hd3, hd4, List.length_append, List.length_cons,
      List.append_nil]
    omega
  · rw [hd1]
    intro hcon
    exact hne1 (List.append_eq_nil.mp hcon).1

theorem allDigits_parseIPv4_none (l : List Char)
    (h : ∀ c ∈ l, isDigitC c = true) : parseIPv4 l = none := by
  have ht : l.takeWhile isDigitC = l := List.takeWhile_eq_self_iff.mpr h
  have hd : l.dropWhile isDigitC = [] := List.dropWhile_eq_nil_iff.mpr h
  have hro : readOct l = (octFromDigits l).map (fun v => (v, [])) := by
    unfold readOct
    rw [ht, hd]
    cases octFromDigits l <;> rfl
  unfold parseIPv4
  rw [hro]
  cases octFromDigits l <;> rfl

theorem readOct_two_digits (x y : Char) (r : List Char)
    (hx : isDigitC x = true) (hy : isDigitC y = true) (hx0 : x ≠ '0') :
    readOct (x :: y :: '.' :: r) =
      some (10 * digitVal x + digitVal y, '.' :: r) := by
  have ht : (x :: y :: '.' :: r).takeWhile isDigitC = [x, y] := by
    rw [List.takeWhile_cons, if_pos hx, List.takeWhile_cons, if_pos hy,
      List.takeWhile_cons, if_neg (by decide)]
  have hd : (x :: y :: '.' :: r).dropWhile isDigitC = '.' :: r := by
    rw [List.dropWhile_cons_of_pos hx, List.dropWhile_cons_of_pos hy,
      List.dropWhile_cons_of_neg (by decide)]
  unfold readOct
  rw [ht, hd]
  simp only [octFromDigits]
  rw [if_pos (by simp [hx, hy, hx0])]

theorem test172Tail_inv (t : List Char) (h : test172Tail t = true) :
    ∃ x y r, t = x :: y :: '.' :: r ∧
      ((x = '1' ∧ 54 ≤ y.toNat ∧ y.toNat ≤ 57) ∨
       (x = '2' ∧ isDigitC y = true) ∨ (x = '3' ∧ (y = '0' ∨ y = '1'))) := by
  match t with
  | [] => exact absurd h (by simp [test172Tail])
  | [x] => exact absurd h (by simp [test172Tail])
  | [x, y] => exact absurd h (by simp [test172Tail])
  | x :: y :: z :: r =>
    simp only [test172Tail, Bool.and_eq_true, Bool.or_eq_true,
      decide_eq_true_eq] at h
    obtain ⟨hz, hcases⟩ := h
    refine ⟨x, y, r, by rw [hz], ?_⟩
    rcases hcases with (⟨h1, h2⟩ | ⟨h1, h2⟩) | h1
    case intro.inl.inl.intro =>
      exact Or.inl ⟨h1.1, (char_le_iff '6' y).mp h1.2, (char_le_iff y '9').mp h2⟩
    case intro.inl.inr.intro => exact Or.inr (Or.inl ⟨h1, h2⟩)
    case intro.inr => exact Or.inr (Or.inr h1)


theorem hasPref_decomp (p s : String) (h : hasPref p s = true) :
    ∃ t, s.toList = p.toList ++ t := by
  unfold hasPref at h
  obtain ⟨t, ht⟩ := List.isPrefixOf_iff_prefix.mp h
  exact ⟨t, ht.symm⟩

theorem regex_octets (h : String) (a b c d : Nat)
    (hq : parseIPv4 h.toList = some (a, b, c, d))
    (hreg : privateRegexTest h = true) :
    a = 10 ∨ (a = 192 ∧ b = 168) ∨ (a = 172 ∧ 16 ≤ b ∧ b ≤ 31) := by
  obtain ⟨r1, r2, r3, hr1, hr2, hr3, hr4⟩ := parseIPv4_split _ a b c d hq
  unfold privateRegexTest at hreg
  simp only [Bool.or_eq_true, Bool.and_eq_true] at hreg
  rcases hreg with (h10 | h192) | ⟨h172, htail⟩
  · left
    obtain ⟨t, ht⟩ := hasPref_decomp _ _ h10
    have ht2 : h.toList = '1' :: '0' :: '.' :: t := ht
    rw [ht2] at hr1
    rw [show readOct ('1' :: '0' :: '.' :: t) = some (10, '.' :: t) from rfl] at hr1
    simp only [Option.some.injEq, Prod.mk.injEq] at hr1
    exact hr1.1.symm
  · right; left
    obtain ⟨t, ht⟩ := hasPref_decomp _ _ h192
    have ht2 : h.toList = '1' :: '9' :: '2' :: '.' :: '1' :: '6' :: '8' :: '.' :: t := ht
    rw [ht2] at hr1
    rw [show readOct ('1' :: '9' :: '2' :: '.' :: '1' :: '6' :: '8' :: '.' :: t) =
      some (192, '.' :: ('1' :: '6' :: '8' :: '.' :: t)) from rfl] at hr1
    simp only [Option.some.injEq, Prod.mk.injEq, List.cons.injEq, true_and] at hr1
    obtain ⟨ha, hrr⟩ := hr1
    rw [← hrr] at hr2
    rw [show readOct ('1' :: '6' :: '8' :: '.' :: t) = some (168, '.' :: t) from rfl] at hr2
    simp only [Option.some.injEq, Prod.mk.injEq] at hr2
    exact ⟨ha.symm, hr2.1.symm⟩
  · right; right
    obtain ⟨t, ht⟩ := hasPref_decomp _ _ h172
    have ht2 : h.toList = '1' :: '7' :: '2' :: '.' :: t := ht
    have hdrop : h.toList.drop 4 = t := by rw [ht2]; rfl
    rw [hdrop] at htail
    obtain ⟨x, y, r, hxyz, hcond⟩ := test172Tail_inv t htail
    rw [ht2] at hr1
    rw [show readOct ('1' :: '7' :: '2' :: '.' :: t) = some (172, '.' :: t) from rfl] at hr1
    simp only [Option.some.injEq, Prod.mk.injEq, List.cons.injEq, true_and] at hr1
    obtain ⟨ha, hrr⟩ := hr1
    rw [← hrr, hxyz] at hr2
    have hx : isDigitC x = true := by
      rcases hcond with ⟨h1, _⟩ | ⟨h1, _⟩ | ⟨h1, _⟩ <;> subst h1 <;> decide
    have hy : isDigitC y = true := by
      rcases hcond with ⟨_, h2, h3⟩ | ⟨_, h2⟩ | ⟨_, h2⟩
      · unfold isDigitC
        simp only [Bool.and_eq_true, decide_eq_true_eq]
        rw [char_le_iff, char_le_iff]
        have e0 : ('0' : Char).toNat = 48 := rfl
        have e9 : ('9' : Char).toNat = 57 := rfl
        omega
      · exact h2
      · rcases h2 with h2 | h2 <;> subst h2 <;> decide
    have hx0 : x ≠ '0' := by
      rcases hcond with ⟨h1, _⟩ | ⟨h1, _⟩ | ⟨h1, _⟩ <;> subst h1 <;> decide
    rw [readOct_two_digits x y r hx hy hx0] at hr2
    simp only [Option.some.injEq, Prod.mk.injEq] at hr2
    obtain ⟨hb, _⟩ := hr2
    have hbv : 16 ≤ 10 * digitVal x + digitVal y ∧ 10 * digitVal x + digitVal y ≤ 31 := by
      unfold digitVal
      rcases hcond with ⟨h1, h2, h3⟩ | ⟨h1, h2⟩ | ⟨h1, h2⟩
      · subst h1
        have e1 : ('1' : Char).toNat = 49 := rfl
        omega
      · subst h1
        have h4 := isDigitC_toNat y h2
        have e2 : ('2' : Char).toNat = 50 := rfl
        omega
      · subst h1
        have e3 : ('3' : Char).toNat = 51 := rfl
        rcases h2 with h2 | h2 <;> subst h2
        · have e0 : ('0' : Char).toNat = 48 := rfl
          omega
        · have e1 : ('1' : Char).toNat = 49 := rfl
          omega
    exact ⟨ha.symm, by rw [← hb]; exact hbv.1, by rw [← hb]; exact hbv.2⟩

theorem mk_toList (s : String) : String.mk s.toList = s := rfl

theorem map_toLowerC_digitDot (l : List Char)
    (h : ∀ x ∈ l, isDigitC x = true ∨ x = '.') : l.map toLowerC = l := by
  induction l with
  | nil => rfl
  | cons a t ih =>
    have ha : toLowerC a = a := by
      rcases h a (List.mem_cons_self a t) with h1 | h1
      · have h2 := isDigitC_toNat a h1
        exact toLowerC_fix a (by omega)
      · subst h1; decide
    rw [List.map_cons, ha, ih (fun x hx => h x (List.mem_cons_of_mem a hx))]

theorem ipv4_ne_str (host w : String) (a b c d : Nat)
    (hip : parseIPv4 host.toList = some (a, b, c, d))
    (hw : parseIPv4 w.toList = none) : host ≠ w := by
  intro he
  rw [he, hw] at hip
  exact Option.noConfusion hip

theorem ipv4_ne_of_val (host w : String) (a b c d a2 b2 c2 d2 : Nat)
    (hip : parseIPv4 host.toList = some (a, b, c, d))
    (hw : parseIPv4 w.toList = some (a2, b2, c2, d2))
    (hne : ¬(a = a2 ∧ b = b2 ∧ c = c2 ∧ d = d2)) : host ≠ w := by
  intro he
  rw [he, hw] at hip
  simp only [Option.some.injEq, Prod.mk.injEq] at hip
  exact hne ⟨hip.1.symm, hip.2.1.symm, hip.2.2.1.symm, hip.2.2.2.symm⟩

theorem publicIPv4_checks_false (host : String) (a b c d : Nat)
    (hip : parseIPv4 host.toList = some (a, b, c, d))
    (hpub : a ≠ 127 ∧ a ≠ 10 ∧ ¬(a = 172 ∧ 16 ≤ b ∧ b ≤ 31) ∧
            ¬(a = 192 ∧ b = 168) ∧ ¬(a = 0 ∧ b = 0 ∧ c = 0 ∧ d = 0)) :
    blockedHosts.contains (toLowerStr host) = false ∧
    privateRegexTest host = false ∧
    isLoopbackOrPrivateIP host = false := by
  obtain ⟨hp127, hp10, hp172, hp192, hpz⟩ := hpub
  have hmap : host.toList.map toLowerC = host.toList :=
    map_toLowerC_digitDot _ (parseIPv4_chars _ a b c d hip)
  have hlow : toLowerStr host = host := by
    unfold toLowerStr
    rw [hmap, mk_toList]
  have hneL : host.toList ≠ [] := (parseIPv4_len _ a b c d hip).2
  have hne0 : ¬(host = "") := fun he => hneL (by rw [he]; rfl)
  refine ⟨?_, ?_, ?_⟩
  · rw [hlow]
    simp only [blockedHosts, List.contains_cons, List.contains_nil,
      Bool.or_eq_false_iff, beq_eq_false_iff_ne]
    refine ⟨?_, ?_, ?_, ?_, ?_, trivial⟩
    · exact ipv4_ne_str host "localhost" a b c d hip rfl
    · exact ipv4_ne_of_val host "127.0.0.1" a b c d 127 0 0 1 hip rfl
        (fun hc => hp127 hc.1)
    · exact ipv4_ne_of_val host "0.0.0.0" a b c d 0 0 0 0 hip rfl hpz
    · exact ipv4_ne_str host "::1" a b c d hip rfl
    · exact ipv4_ne_str host "[::1]" a b c d hip rfl
  · cases hv : privateRegexTest host with
    | false => rfl
    | true =>
      rcases regex_octets host a b c d hip hv with h1 | ⟨h1, h2⟩ | ⟨h1, h2, h3⟩
      · exact absurd h1 hp10
      · exact absurd ⟨h1, h2⟩ hp192
      · exact absurd ⟨h1, h2, h3⟩ hp172
  · simp only [isLoopbackOrPrivateIP, if_neg hne0, hlow, hip]
    simp only [Bool.or_eq_false_iff, Bool.and_eq_false_iff,
      decide_eq_false_iff_not]
    omega

theorem toLowerC_inv_alpha (x : Char)
    (hc : 97 ≤ (toLowerC x).toNat ∧ (toLowerC x).toNat ≤ 122) :
    (65 ≤ x.toNat ∧ x.toNat ≤ 90) ∨ (97 ≤ x.toNat ∧ x.toNat ≤ 122) := by
  by_cases hup : ('A' ≤ x && x ≤ 'Z') = true
  · left
    simp only [Bool.and_eq_true, decide_eq_true_eq] at hup
    rw [char_le_iff, char_le_iff] at hup
    have ea : ('A' : Char).toNat = 65 := rfl
    have ez : ('Z' : Char).toNat = 90 := rfl
    omega
  · right
    have hfix : toLowerC x = x := by
      unfold toLowerC
      rw [if_neg hup]
    rwa [hfix] at hc

theorem toLowerC_inv_fix (x : Char)
    (hc : (toLowerC x).toNat < 97 ∨ 122 < (toLowerC x).toNat) :
    x = toLowerC x := by
  by_cases hup : ('A' ≤ x && x ≤ 'Z') = true
  · exfalso
    simp only [Bool.and_eq_true, decide_eq_true_eq] at hup
    rw [char_le_iff, char_le_iff] at hup
    have ea : ('A' : Char).toNat = 65 := rfl
    have ez : ('Z' : Char).toNat = 90 := rfl
    have hv : (toLowerC x).toNat = x.toNat + 32 := by
      unfold toLowerC
      rw [if_pos (by
        simp only [Bool.and_eq_true, decide_eq_true_eq]
        rw [char_le_iff, char_le_iff]
        omega)]
      exact toNat_ofNat_valid (x.toNat + 32) (by omega)
    omega
  · unfold toLowerC
    rw [if_neg hup]

theorem map_toLowerC_alpha_chars (l w : List Char)
    (hm : l.map toLowerC = w) (hw : ∀ c ∈ w, 97 ≤ c.toNat ∧ c.toNat ≤ 122) :
    ∀ x ∈ l, (65 ≤ x.toNat ∧ x.toNat ≤ 90) ∨ (97 ≤ x.toNat ∧ x.toNat ≤ 122) := by
  intro x hx
  have h1 : toLowerC x ∈ w := by
    rw [← hm]
    exact List.mem_map_of_mem toLowerC hx
  exact toLowerC_inv_alpha x (hw _ h1)

theorem map_toLowerC_self_of_nonletters (l : List Char)
    (hw : ∀ c ∈ l.map toLowerC, c.toNat < 97 ∨ 122 < c.toNat) :
    l = l.map toLowerC := by
  induction l with
  | nil => rfl
  | cons a t ih =>
    rw [List.map_cons]
    have ha : a = toLowerC a :=
      toLowerC_inv_fix a (hw _ (by rw [List.map_cons]; exact List.mem_cons_self _ _))
    rw [← ha]
    exact congrArg (List.cons a)
      (ih (fun c hc => hw c (by rw [List.map_cons]; exact List.mem_cons_of_mem _ hc)))

theorem eq_of_map_toLowerC_nonletters (l w : List Char)
    (hm : l.map toLowerC = w) (hw : ∀ c ∈ w, c.toNat < 97 ∨ 122 < c.toNat) :
    l = w := by
  rw [← hm]
  exact map_toLowerC_self_of_nonletters l (fun c hc => hw c (hm ▸ hc))

theorem strLength_toList (s : String) : s.length = s.toList.length := rfl

theorem validateUrl_localhost_variants (h : String)
    (hm : h.toList.map toLowerC = "localhost".toList) :
    validateUrl ("http://" ++ h) = .error "Localhost URLs are not allowed" := by
  have hchars := map_toLowerC_alpha_chars h.toList "localhost".toList hm (by decide)
  have hne : h.toList ≠ [] := by
    intro he
    rw [he] at hm
    exact List.noConfusion hm
  have hok : ∀ c ∈ h.toList, hostForbidden c = false := fun c hc =>
    (rangeAlpha_ok c (hchars c hc)).1
  have hws : ∀ c ∈ h.toList, isJsSpace c = false := fun c hc =>
    (rangeAlpha_ok c (hchars c hc)).2
  have hlen : h.length ≤ 2041 := by
    rw [strLength_toList]
    have h2 := congrArg List.length hm
    rw [List.length_map] at h2
    have h3 : ("localhost".toList).length = 9 := rfl
    omega
  rw [validateUrl_http_result h hne hok hws hlen (by rw [hm]; decide)]
  rw [show String.mk (h.toList.map toLowerC) = "localhost" from by rw [hm]; rfl]
  rfl

theorem validateUrl_http_invalid (h : String)
    (hstart : ∃ t, h.toList = ':' :: t)
    (hsafe : ∀ c ∈ h.toList, isAuthEnd c = false ∧ c ≠ '@' ∧ isJsSpace c = false)
    (hlen : h.length ≤ 2041) :
    validateUrl ("http://" ++ h) = .error "Invalid URL" := by
  have hform : ("http://" ++ h).toList =
      'h' :: 't' :: 't' :: 'p' :: ':' :: '/' :: '/' :: h.toList := rfl
  have hne2 : "http://" ++ h ≠ "" := by
    intro he
    have h2 := congrArg String.toList he
    rw [hform] at h2
    exact List.noConfusion h2
  have htrim : jsTrim ("http://" ++ h) = "http://" ++ h := by
    show String.mk (jsTrimList ("http://" ++ h).toList) = _
    rw [hform, jsTrimList_eq_self]
    · rfl
    · intro c hc
      rcases mem_http_prefix_cases h c hc with h1 | h1 | h1 | h1 | h1 | h1
      · rw [h1]; decide
      · rw [h1]; decide
      · rw [h1]; decide
      · rw [h1]; decide
      · rw [h1]; decide
      · exact (hsafe c h1).2.2
  have hlen2 : ¬(MAX_URL_LENGTH < ("http://" ++ h).length) := by
    rw [String.length_append]
    have h7 : "http://".length = 7 := rfl
    unfold MAX_URL_LENGTH
    omega
  have hparse : parseUrlList ("http://" ++ h).toList = none := by
    rw [hform]
    exact parseUrl_http_ipv6ish h.toList hstart
      (fun c hc => ⟨(hsafe c hc).1, (hsafe c hc).2.1⟩)
  unfold validateUrl
  rw [if_neg hne2, htrim, if_neg hne2, if_neg hlen2, hparse]

theorem digit_ne_dot (c : Char) (h : isDigitC c = true) : c ≠ '.' := by
  intro he
  subst he
  exact absurd h (by decide)

theorem splitOnDot_nodot (l : List Char) (h : ∀ c ∈ l, c ≠ '.') :
    splitOnDot l = [l] := by
  induction l with
  | nil => rfl
  | cons a t ih =>
    unfold splitOnDot
    rw [if_neg (h a (List.mem_cons_self a t)),
      ih (fun c hc => h c (List.mem_cons_of_mem a hc))]

theorem splitOnDot_append (ds rest : List Char) (h : ∀ c ∈ ds, c ≠ '.') :
    splitOnDot (ds ++ '.' :: rest) = ds :: splitOnDot rest := by
  induction ds with
  | nil =>
    show splitOnDot ('.' :: rest) = [] :: splitOnDot rest
    conv_lhs => rw [splitOnDot]
    rw [if_pos rfl]
  | cons a t ih =>
    rw [List.cons_append]
    conv_lhs => rw [splitOnDot]
    rw [if_neg (h a (List.mem_cons_self a t)),
      ih (fun c hc => h c (List.mem_cons_of_mem a hc))]

theorem ipv4NumPart_digits (l : List Char) (hne : l ≠ [])
    (hd : ∀ c ∈ l, isDigitC c = true)
    (hz : ∀ t, l = '0' :: t → t = []) :
    ipv4NumPart l = some (digitsToNat l) := by
  cases l with
  | nil => exact absurd rfl hne
  | cons c rest =>
    by_cases hc : c = '0'
    · subst hc
      have h0 : rest = [] := hz rest rfl
      subst h0
      rfl
    · simp only [ipv4NumPart]
      rw [if_neg hc, if_pos (List.all_eq_true.mpr hd)]

theorem octFromDigits_full (ds : List Char) (v : Nat)
    (h : octFromDigits ds = some v) :
    digitsToNat ds = v ∧ v ≤ 255 ∧ (∀ t, ds = '0' :: t → t = []) := by
  match ds with
  | [] => exact absurd h (by simp [octFromDigits])
  | [a] =>
    simp only [octFromDigits] at h
    by_cases ha : isDigitC a = true
    · rw [if_pos ha] at h
      simp only [Option.some.injEq] at h
      subst h
      have hb := isDigitC_toNat a ha
      refine ⟨?_, ?_, ?_⟩
      · show 10 * 0 + digitVal a = digitVal a
        omega
      · unfold digitVal
        omega
      · intro t ht
        injection ht with h1 h2
        exact h2.symm
    · rw [if_neg ha] at h
      exact absurd h (by simp)
  | [a, b] =>
    simp only [octFromDigits] at h
    by_cases hcond : (isDigitC a && a ≠ '0' && isDigitC b) = true
    · rw [if_pos hcond] at h
      simp only [Option.some.injEq] at h
      subst h
      simp only [Bool.and_eq_true, decide_eq_true_eq, ne_eq] at hcond
      obtain ⟨⟨ha, ha0⟩, hb⟩ := hcond
      have hba := isDigitC_toNat a ha
      have hbb := isDigitC_toNat b hb
      refine ⟨?_, ?_, ?_⟩
      · show 10 * (10 * 0 + digitVal a) + digitVal b = _
        omega
      · unfold digitVal
        omega
      · intro t ht
        injection ht with h1 h2
        exact absurd h1 ha0
    · rw [if_neg hcond] at h
      exact absurd h (by simp)
  | [a, b, c] =>
    simp only [octFromDigits] at h
    by_cases hcond : (isDigitC a && a ≠ '0' && isDigitC b && isDigitC c &&
        decide (100 * digitVal a + 10 * digitVal b + digitVal c ≤ 255)) = true
    · rw [if_pos hcond] at h
      simp only [Option.some.injEq] at h
      subst h
      simp only [Bool.and_eq_true, decide_eq_true_eq, ne_eq] at hcond
      obtain ⟨⟨⟨⟨ha, ha0⟩, hb⟩, hc⟩, hle⟩ := hcond
      refine ⟨?_, hle, ?_⟩
      · show 10 * (10 * (10 * 0 + digitVal a) + digitVal b) + digitVal c = _
        omega
      · intro t ht
        injection ht with h1 h2
        exact absurd h1 ha0
    · rw [if_neg hcond] at h
      exact absurd h (by simp)
  | _ :: _ :: _ :: _ :: _ => exact absurd h (by simp [octFromDigits])

theorem lastPart_of_reverse_cons (host : List Char) (x : List Char)
    (xs : List (List Char)) (h : (splitOnDot host).reverse = x :: xs)
    (hx : x ≠ []) : lastPart host = some x := by
  unfold lastPart
  simp only [h]
  rw [if_neg hx]

theorem endsInNumber_of_lastPart (host : List Char) (x : List Char)
    (h : lastPart host = some x) (hne : x ≠ [])
    (hd : ∀ c ∈ x, isDigitC c = true) : endsInNumber host = true := by
  unfold endsInNumber
  simp only [h]
  have h1 : x.isEmpty = false := by
    cases x with
    | nil => exact absurd rfl hne
    | cons a t => rfl
  rw [h1, List.all_eq_true.mpr hd]
  rfl

theorem ipv4Parse_quad (l : List Char) (d1 d2 d3 d4 : List Char)
    (a b c d : Nat) (hsplit : splitOnDot l = [d1, d2, d3, d4])
    (h4ne : d4 ≠ [])
    (hp1 : ipv4NumPart d1 = some a) (hp2 : ipv4NumPart d2 = some b)
    (hp3 : ipv4NumPart d3 = some c) (hp4 : ipv4NumPart d4 = some d)
    (ha : a ≤ 255) (hb : b ≤ 255) (hc : c ≤ 255) (hd : d ≤ 255) :
    ipv4Parse l = some (a * 16777216 + b * 65536 + c * 256 + d) := by
  unfold ipv4Parse
  simp only [hsplit]
  rw [if_neg ?hcond]
  case hcond =>
    intro hcc
    have hlast : List.getLast? [d1, d2, d3, d4] = some d4 := rfl
    rw [hlast] at hcc
    exact h4ne (Option.some.inj hcc.1)
  have hpp : parsePartsNums [d1, d2, d3, d4] = some [a, b, c, d] := by
    simp only [parsePartsNums, hp1, hp2, hp3, hp4]
  simp only [hpp]
  show (if a ≤ 255 ∧ b ≤ 255 ∧ c ≤ 255 ∧ d < 256 then
      some (a * 16777216 + b * 65536 + c * 256 + d) else none) = _
  rw [if_pos ⟨ha, hb, hc, by omega⟩]

theorem endsInNumber_digits (l : List Char) (hne : l ≠ [])
    (hd : ∀ c ∈ l, isDigitC c = true) : endsInNumber l = true := by
  have hsplit : splitOnDot l = [l] :=
    splitOnDot_nodot l (fun c hc => digit_ne_dot c (hd c hc))
  refine endsInNumber_of_lastPart l l ?_ hne hd
  apply lastPart_of_reverse_cons l l []
  · rw [hsplit]
    rfl
  · exact hne

theorem ipv4Parse_digits (l : List Char) (hne : l ≠ [])
    (hd : ∀ c ∈ l, isDigitC c = true)
    (hz : ∀ t, l = '0' :: t → t = [])
    (hb : digitsToNat l < 4294967296) :
    ipv4Parse l = some (digitsToNat l) := by
  have hsplit : splitOnDot l = [l] :=
    splitOnDot_nodot l (fun c hc => digit_ne_dot c (hd c hc))
  unfold ipv4Parse
  simp only [hsplit]
  rw [if_neg ?hc1]
  case hc1 =>
    intro hcc
    have h2 : List.length [l] = 1 := rfl
    rw [h2] at hcc
    omega
  have hpp : parsePartsNums [l] = some [digitsToNat l] := by
    simp only [parsePartsNums, ipv4NumPart_digits l hne hd hz]
  simp only [hpp]
  show (if digitsToNat l < 4294967296 then some (digitsToNat l) else none) = _
  rw [if_pos hb]

theorem isDigitC_ofNat (m : Nat) (hm : m ≤ 9) :
    isDigitC (Char.ofNat (48 + m)) = true := by
  unfold isDigitC
  simp only [Bool.and_eq_true, decide_eq_true_eq]
  rw [char_le_iff, char_le_iff, toNat_ofNat_valid (48 + m) (by omega)]
  have e0 : ('0' : Char).toNat = 48 := rfl
  have e9 : ('9' : Char).toNat = 57 := rfl
  omega

theorem digitVal_ofNat (m : Nat) (hm : m ≤ 9) :
    digitVal (Char.ofNat (48 + m)) = m := by
  unfold digitVal
  rw [toNat_ofNat_valid (48 + m) (by omega)]
  omega

theorem ofNat_ne_zero_char (m : Nat) (hm1 : 1 ≤ m) (hm9 : m ≤ 9) :
    Char.ofNat (48 + m) ≠ '0' := by
  intro he
  have h2 := congrArg Char.toNat he
  rw [toNat_ofNat_valid (48 + m) (by omega)] at h2
  have e0 : ('0' : Char).toNat = 48 := rfl
  omega

theorem serOctet_spec (m : Nat) (hm : m ≤ 255) :
    (∀ c ∈ serOctet m, isDigitC c = true) ∧
    octFromDigits (serOctet m) = some m ∧ serOctet m ≠ [] := by
  unfold serOctet
  by_cases h1 : m < 10
  · rw [if_pos h1]
    refine ⟨?_, ?_, by simp⟩
    · intro c hc
      simp only [List.mem_singleton] at hc
      subst hc
      exact isDigitC_ofNat m (by omega)
    · simp only [octFromDigits]
      rw [if_pos (isDigitC_ofNat m (by omega)), digitVal_ofNat m (by omega)]
  · rw [if_neg h1]
    by_cases h2 : m < 100
    · rw [if_pos h2]
      have hda := isDigitC_ofNat (m / 10) (by omega)
      have hdb := isDigitC_ofNat (m % 10) (by omega)
      refine ⟨?_, ?_, by simp⟩
      · intro c hc
        simp only [List.mem_cons, List.mem_singleton, List.not_mem_nil,
          or_false] at hc
        rcases hc with hc | hc <;> subst hc
        · exact hda
        · exact hdb
      · simp only [octFromDigits]
        rw [if_pos ?hcnd]
        case hcnd =>
          simp only [Bool.and_eq_true, decide_eq_true_eq, ne_eq]
          exact ⟨⟨hda, ofNat_ne_zero_char (m / 10) (by omega) (by omega)⟩, hdb⟩
        rw [digitVal_ofNat (m / 10) (by omega), digitVal_ofNat (m % 10) (by omega)]
        congr 1
        omega
    · rw [if_neg h2]
      have hda := isDigitC_ofNat (m / 100) (by omega)
      have hdb := isDigitC_ofNat (m / 10 % 10) (by omega)
      have hdc := isDigitC_ofNat (m % 10) (by omega)
      refine ⟨?_, ?_, by simp⟩
      · intro c hc
        simp only [List.mem_cons, List.mem_singleton, List.not_mem_nil,
          or_false] at hc
        rcases hc with hc | hc | hc <;> subst hc
        · exact hda
        · exact hdb
        · exact hdc
      · simp only [octFromDigits]
        rw [if_pos ?hcnd2]
        case hcnd2 =>
          simp only [Bool.and_eq_true, decide_eq_true_eq, ne_eq]
          refine ⟨⟨⟨⟨hda, ofNat_ne_zero_char (m / 100) (by omega) (by omega)⟩,
            hdb⟩, hdc⟩, ?_⟩
          rw [digitVal_ofNat (m / 100) (by omega),
            digitVal_ofNat (m / 10 % 10) (by omega),
            digitVal_ofNat (m % 10) (by omega)]
          omega
        rw [digitVal_ofNat (m / 100) (by omega),
          digitVal_ofNat (m / 10 % 10) (by omega),
          digitVal_ofNat (m % 10) (by omega)]
        congr 1
        omega

theorem readOct_ser (m : Nat) (hm : m ≤ 255) (rest : List Char)
    (hrest : rest = [] ∨ ∃ t, rest = '.' :: t) :
    readOct (serOctet m ++ rest) = some (m, rest) := by
  obtain ⟨hd, ho, hne⟩ := serOctet_spec m hm
  have hr2 : rest = [] ∨ ∃ c t, rest = c :: t ∧ isDigitC c = false := by
    rcases hrest with h | ⟨t, ht⟩
    · exact Or.inl h
    · exact Or.inr ⟨'.', t, ht, by decide⟩
  unfold readOct
  rw [takeWhile_append_all isDigitC _ _ hd hr2, ho,
    dropWhile_append_rest isDigitC _ _ hd hr2]

theorem parseIPv4_serialize (n : Nat) :
    parseIPv4 (serializeIPv4 n) =
      some (n / 16777216 % 256, n / 65536 % 256, n / 256 % 256, n % 256) := by
  have hb1 : n / 16777216 % 256 ≤ 255 := by omega
  have hb2 : n / 65536 % 256 ≤ 255 := by omega
  have hb3 : n / 256 % 256 ≤ 255 := by omega
  have hb4 : n % 256 ≤ 255 := by omega
  have h4 : readOct (serOctet (n % 256)) = some (n % 256, []) := by
    have := readOct_ser (n % 256) hb4 [] (Or.inl rfl)
    rwa [List.append_nil] at this
  have h3 : readOct (serOctet (n / 256 % 256) ++ '.' :: serOctet (n % 256)) =
      some (n / 256 % 256, '.' :: serOctet (n % 256)) :=
    readOct_ser _ hb3 _ (Or.inr ⟨_, rfl⟩)
  have h2 : readOct (serOctet (n / 65536 % 256) ++ '.' ::
      (serOctet (n / 256 % 256) ++ '.' :: serOctet (n % 256))) =
      some (n / 65536 % 256,
        '.' :: (serOctet (n / 256 % 256) ++ '.' :: serOctet (n % 256))) :=
    readOct_ser _ hb2 _ (Or.inr ⟨_, rfl⟩)
  have h1 : readOct (serializeIPv4 n) =
      some (n / 16777216 % 256, '.' :: (serOctet (n / 65536 % 256) ++ '.' ::
        (serOctet (n / 256 % 256) ++ '.' :: serOctet (n % 256)))) :=
    readOct_ser _ hb1 _ (Or.inr ⟨_, rfl⟩)
  unfold parseIPv4
  simp only [h1, h2, h3, h4]

theorem serializeIPv4_chars (n : Nat) :
    ∀ c ∈ serializeIPv4 n, isDigitC c = true ∨ c = '.' := by
  intro c hc
  unfold serializeIPv4 at hc
  simp only [List.mem_append, List.mem_cons] at hc
  have s1 := (serOctet_spec (n / 16777216 % 256) (by omega)).1
  have s2 := (serOctet_spec (n / 65536 % 256) (by omega)).1
  have s3 := (serOctet_spec (n / 256 % 256) (by omega)).1
  have s4 := (serOctet_spec (n % 256) (by omega)).1
  rcases hc with hc | hc | hc | hc | hc | hc | hc
  · exact Or.inl (s1 c hc)
  · exact Or.inr hc
  · exact Or.inl (s2 c hc)
  · exact Or.inr hc
  · exact Or.inl (s3 c hc)
  · exact Or.inr hc
  · exact Or.inl (s4 c hc)

theorem serializeIPv4_ne_nil (n : Nat) : serializeIPv4 n ≠ [] := by
  unfold serializeIPv4
  intro h2
  exact List.append_ne_nil_of_left_ne_nil
    (serOctet_spec (n / 16777216 % 256) (by omega)).2.2 _ h2

theorem quad_bytes (a b c d : Nat) (ha : a ≤ 255) (hb : b ≤ 255)
    (hc : c ≤ 255) (hd : d ≤ 255) :
    (a * 16777216 + b * 65536 + c * 256 + d) / 16777216 % 256 = a ∧
    (a * 16777216 + b * 65536 + c * 256 + d) / 65536 % 256 = b ∧
    (a * 16777216 + b * 65536 + c * 256 + d) / 256 % 256 = c ∧
    (a * 16777216 + b * 65536 + c * 256 + d) % 256 = d := by
  refine ⟨?_, ?_, ?_, ?_⟩ <;> omega

theorem quad_normalization (l : List Char) (a b c d : Nat)
    (hip : parseIPv4 l = some (a, b, c, d)) :
    endsInNumber l = true ∧
    ipv4Parse l = some (a * 16777216 + b * 65536 + c * 256 + d) ∧
    a ≤ 255 ∧ b ≤ 255 ∧ c ≤ 255 ∧ d ≤ 255 := by
  obtain ⟨r1, r2, r3, hr1, hr2, hr3, hr4⟩ := parseIPv4_split l a b c d hip
  obtain ⟨e1, he1, hne1, _, hd1, ho1⟩ := readOct_split _ _ _ hr1
  obtain ⟨e2, he2, hne2, _, hd2, ho2⟩ := readOct_split _ _ _ hr2
  obtain ⟨e3, he3, hne3, _, hd3, ho3⟩ := readOct_split _ _ _ hr3
  obtain ⟨e4, he4, hne4, _, hd4, ho4⟩ := readOct_split _ _ _ hr4
  obtain ⟨hv1, hb1, hz1⟩ := octFromDigits_full e1 a ho1
  obtain ⟨hv2, hb2, hz2⟩ := octFromDigits_full e2 b ho2
  obtain ⟨hv3, hb3, hz3⟩ := octFromDigits_full e3 c ho3
  obtain ⟨hv4, hb4, hz4⟩ := octFromDigits_full e4 d ho4
  rw [List.append_nil] at he4
  have hsplit : splitOnDot l = [e1, e2, e3, e4] := by
    rw [he1, splitOnDot_append e1 _ (fun c2 hc2 => digit_ne_dot c2 (hd1 c2 hc2)),
      he2, splitOnDot_append e2 _ (fun c2 hc2 => digit_ne_dot c2 (hd2 c2 hc2)),
      he3, splitOnDot_append e3 _ (fun c2 hc2 => digit_ne_dot c2 (hd3 c2 hc2)),
      he4, splitOnDot_nodot e4 (fun c2 hc2 => digit_ne_dot c2 (hd4 c2 hc2))]
  have hlast : lastPart l = some e4 := by
    apply lastPart_of_reverse_cons l e4 [e3, e2, e1]
    · rw [hsplit]
      rfl
    · exact hne4
  have hp1 : ipv4NumPart e1 = some a := by
    rw [ipv4NumPart_digits e1 hne1 hd1 hz1, hv1]
  have hp2 : ipv4NumPart e2 = some b := by
    rw [ipv4NumPart_digits e2 hne2 hd2 hz2, hv2]
  have hp3 : ipv4NumPart e3 = some c := by
    rw [ipv4NumPart_digits e3 hne3 hd3 hz3, hv3]
  have hp4 : ipv4NumPart e4 = some d := by
    rw [ipv4NumPart_digits e4 hne4 hd4 hz4, hv4]
  exact ⟨endsInNumber_of_lastPart l e4 hlast hne4 hd4,
    ipv4Parse_quad l e1 e2 e3 e4 a b c d hsplit hne4 hp1 hp2 hp3 hp4
      hb1 hb2 hb3 hb4, hb1, hb2, hb3, hb4⟩

theorem serialized_host_facts (n : Nat) :
    toLowerStr (String.mk (serializeIPv4 n)) = String.mk (serializeIPv4 n) ∧
    ¬(String.mk (serializeIPv4 n) = "") ∧
    parseIPv4 (String.mk (serializeIPv4 n)).toList =
      some (n / 16777216 % 256, n / 65536 % 256, n / 256 % 256, n % 256) := by
  have hmap : (serializeIPv4 n).map toLowerC = serializeIPv4 n :=
    map_toLowerC_digitDot _ (serializeIPv4_chars n)
  refine ⟨?_, ?_, ?_⟩
  · unfold toLowerStr
    rw [show (String.mk (serializeIPv4 n)).toList = serializeIPv4 n from rfl,
      hmap]
  · intro he
    have h2 := congrArg String.toList he
    exact serializeIPv4_ne_nil n h2
  · rw [show (String.mk (serializeIPv4 n)).toList = serializeIPv4 n from rfl]
    exact parseIPv4_serialize n

theorem validateUrl_http_num_private (h : String) (n : Nat)
    (hne : h.toList ≠ [])
    (hok : ∀ c ∈ h.toList, hostForbidden c = false)
    (hws : ∀ c ∈ h.toList, isJsSpace c = false)
    (hlen : h.length ≤ 2041)
    (hnum : endsInNumber (h.toList.map toLowerC) = true)
    (hip : ipv4Parse (h.toList.map toLowerC) = some n)
    (hpriv : n / 16777216 % 256 = 127 ∨ n / 16777216 % 256 = 10 ∨
      (n / 16777216 % 256 = 172 ∧ 16 ≤ n / 65536 % 256 ∧
       n / 65536 % 256 ≤ 31) ∨
      (n / 16777216 % 256 = 192 ∧ n / 65536 % 256 = 168) ∨
      (n / 16777216 % 256 = 0 ∧ n / 65536 % 256 = 0 ∧
       n / 256 % 256 = 0 ∧ n % 256 = 0)) :
    ∃ m, validateUrl ("http://" ++ h) = .error m ∧
      (m = "Localhost URLs are not allowed" ∨
       m = "Private network URLs are not allowed" ∨
       m = "Localhost and private network URLs are not allowed") := by
  obtain ⟨hlow, hne0, hip2⟩ := serialized_host_facts n
  rw [validateUrl_http_ipv4num h n hne hok hws hlen hnum hip]
  by_cases h1 : blockedHosts.contains
      (toLowerStr (String.mk (serializeIPv4 n))) = true
  · exact ⟨_, by rw [if_pos h1], Or.inl rfl⟩
  · rw [if_neg h1]
    by_cases h2 : privateRegexTest (String.mk (serializeIPv4 n)) = true
    · exact ⟨_, by rw [if_pos h2], Or.inr (Or.inl rfl)⟩
    · rw [if_neg h2]
      have h3 : isLoopbackOrPrivateIP (String.mk (serializeIPv4 n)) = true := by
        simp only [isLoopbackOrPrivateIP, if_neg hne0, hlow, hip2]
        simp only [Bool.or_eq_true, Bool.and_eq_true, decide_eq_true_eq]
        omega
      rw [if_pos h3]
      exact ⟨_, rfl, Or.inr (Or.inr rfl)⟩

theorem validateUrl_private_dotted (h : String) (a b c d : Nat)
    (hip : parseIPv4 h.toList = some (a, b, c, d))
    (hpriv : a = 127 ∨ a = 10 ∨ (a = 172 ∧ 16 ≤ b ∧ b ≤ 31) ∨
             (a = 192 ∧ b = 168) ∨ (a = 0 ∧ b = 0 ∧ c = 0 ∧ d = 0)) :
    ∃ m, validateUrl ("http://" ++ h) = .error m ∧
      (m = "Localhost URLs are not allowed" ∨
       m = "Private network URLs are not allowed" ∨
       m = "Localhost and private network URLs are not allowed") := by
  have hchars := parseIPv4_chars _ a b c d hip
  have hneL : h.toList ≠ [] := (parseIPv4_len _ a b c d hip).2
  have hok : ∀ x ∈ h.toList, hostForbidden x = false := by
    intro x hx
    rcases hchars x hx with h1 | h1
    · exact (digitDot_ok x (Or.inl (isDigitC_toNat x h1))).1
    · subst h1
      exact (digitDot_ok '.' (Or.inr rfl)).1
  have hws : ∀ x ∈ h.toList, isJsSpace x = false := by
    intro x hx
    rcases hchars x hx with h1 | h1
    · exact (digitDot_ok x (Or.inl (isDigitC_toNat x h1))).2.1
    · subst h1
      exact (digitDot_ok '.' (Or.inr rfl)).2.1
  have hlen : h.length ≤ 2041 := by
    rw [strLength_toList]
    have h2 := (parseIPv4_len _ a b c d hip).1
    omega
  have hmap : h.toList.map toLowerC = h.toList :=
    map_toLowerC_digitDot _ hchars
  obtain ⟨hnum, hip2, hb1, hb2, hb3, hb4⟩ :=
    quad_normalization h.toList a b c d hip
  obtain ⟨q1, q2, q3, q4⟩ := quad_bytes a b c d hb1 hb2 hb3 hb4
  apply validateUrl_http_num_private h
    (a * 16777216 + b * 65536 + c * 256 + d) hneL hok hws hlen
    (by rw [hmap]; exact hnum) (by rw [hmap]; exact hip2)
  rw [q1, q2, q3, q4]
  exact hpriv

theorem validateUrl_private_decimal (h : String)
    (hdig : allDigits h.toList = true)
    (hz : ∀ t, h.toList = '0' :: t → t = [])
    (hlen : h.length ≤ 2041)
    (hbound : digitsToNat h.toList ≤ 4294967295)
    (hpriv : digitsToNat h.toList / 2 ^ 24 % 256 = 127 ∨
             digitsToNat h.toList / 2 ^ 24 % 256 = 10 ∨
             (digitsToNat h.toList / 2 ^ 24 % 256 = 172 ∧
              16 ≤ digitsToNat h.toList / 2 ^ 16 % 256 ∧
              digitsToNat h.toList / 2 ^ 16 % 256 ≤ 31) ∨
             (digitsToNat h.toList / 2 ^ 24 % 256 = 192 ∧
              digitsToNat h.toList / 2 ^ 16 % 256 = 168) ∨
             (digitsToNat h.toList / 2 ^ 24 % 256 = 0 ∧
              digitsToNat h.toList / 2 ^ 16 % 256 = 0 ∧
              digitsToNat h.toList / 2 ^ 8 % 256 = 0 ∧
              digitsToNat h.toList % 256 = 0)) :
    ∃ m, validateUrl ("http://" ++ h) = .error m ∧
      (m = "Localhost URLs are not allowed" ∨
       m = "Private network URLs are not allowed" ∨
       m = "Localhost and private network URLs are not allowed") := by
  have hall : ∀ x ∈ h.toList, isDigitC x = true := by
    unfold allDigits at hdig
    simp only [Bool.and_eq_true, List.all_eq_true] at hdig
    exact hdig.2
  have hneL : h.toList ≠ [] := by
    unfold allDigits at hdig
    simp only [Bool.and_eq_true] at hdig
    intro he
    rw [he] at hdig
    exact absurd hdig.1 (by decide)
  have hok : ∀ x ∈ h.toList, hostForbidden x = false := fun x hx =>
    (digitDot_ok x (Or.inl (isDigitC_toNat x (hall x hx)))).1
  have hws : ∀ x ∈ h.toList, isJsSpace x = false := fun x hx =>
    (digitDot_ok x (Or.inl (isDigitC_toNat x (hall x hx)))).2.1
  have hmap : h.toList.map toLowerC = h.toList :=
    map_toLowerC_digitDot _ (fun x hx => Or.inl (hall x hx))
  have hnum : endsInNumber h.toList = true := endsInNumber_digits _ hneL hall
  have hip2 : ipv4Parse h.toList = some (digitsToNat h.toList) :=
    ipv4Parse_digits _ hneL hall hz (by omega)
  exact validateUrl_http_num_private h (digitsToNat h.toList) hneL hok hws hlen
    (by rw [hmap]; exact hnum) (by rw [hmap]; exact hip2) (by omega)


/-! Claim theorems. -/

/-- C6: validateDownloadParams accepts and stores every present
    startTime/endTime coercible to a number in 0..604800; rejects
    out-of-range values such as 604801 and -1 and non-coercible values
    with the invalid-start/end messages; leaves undefined, null and
    empty-string time fields absent; accepts every playbackSpeed
    coercible to a number in 0.25..4 (rejecting 0.24 and 4.01 with the
    speed message), and a playbackSpeed strictly equal to the number one
    is accepted but omitted from the output. -/
theorem validateDownloadParams_bounds_and_omissions :
    (∀ (v : JSVal) (q : Rat), v ≠ .undef → v ≠ .nullv → v ≠ .strv "" →
      jsToNumber v = some q → 0 ≤ q → q ≤ 604800 →
      validateDownloadParams ⟨v, .undef, .undef⟩ = .ok ⟨some q, none, none⟩ ∧
      validateDownloadParams ⟨.undef, v, .undef⟩ = .ok ⟨none, some q, none⟩) ∧
    validateDownloadParams ⟨.numv 604801, .undef, .undef⟩ =
      .error "Invalid start time" ∧
    validateDownloadParams ⟨.numv (-1), .undef, .undef⟩ =
      .error "Invalid start time" ∧
    validateDownloadParams ⟨.strv "abc", .undef, .undef⟩ =
      .error "Invalid start time" ∧
    validateDownloadParams ⟨.undef, .numv 604801, .undef⟩ =
      .error "Invalid end time" ∧
    validateDownloadParams ⟨.undef, .numv (-1), .undef⟩ =
      .error "Invalid end time" ∧
    validateDownloadParams ⟨.undef, .strv "abc", .undef⟩ =
      .error "Invalid end time" ∧
    (∀ u : JSVal, u = .undef ∨ u = .nullv ∨ u = .strv "" →
      validateDownloadParams ⟨u, u, .undef⟩ = .ok ⟨none, none, none⟩) ∧
    (∀ (v : JSVal) (q : Rat), v ≠ .undef → v ≠ .nullv →
      jsToNumber v = some q → (1 / 4 : Rat) ≤ q → q ≤ 4 →
      validateDownloadParams ⟨.undef, .undef, v⟩ =
        .ok ⟨none, none, if v = JSVal.numv 1 then none else some q⟩) ∧
    validateDownloadParams ⟨.undef, .undef, .numv (24 / 100)⟩ =
      .error "Playback speed must be between 0.25 and 4" ∧
    validateDownloadParams ⟨.undef, .undef, .numv (401 / 100)⟩ =
      .error "Playback speed must be between 0.25 and 4" ∧
    validateDownloadParams ⟨.undef, .undef, .numv 1⟩ = .ok ⟨none, none, none⟩ := by
  refine ⟨?_, by decide, by decide, by decide, by decide, by decide, by decide,
    ?_, ?_, ?_, ?_, by decide⟩
  · intro v q h1 h2 h3 hn hq0 hq1
    exact ⟨validateDownloadParams_start_ok v q h1 h2 h3 hn hq0 hq1,
           validateDownloadParams_end_ok v q h1 h2 h3 hn hq0 hq1⟩
  · intro u hu
    rcases hu with h | h | h <;> subst h <;> decide
  · intro v q h1 h2 hn hq0 hq1
    exact validateDownloadParams_speed_ok v q h1 h2 hn hq0 hq1
  · exact validateDownloadParams_speed_err _ _
      (checkSpeedField_reject_range (.numv (24 / 100)) (24 / 100)
        (by decide) (by decide) (by norm_num) rfl (Or.inl (by norm_num)))
  · exact validateDownloadParams_speed_err _ _
      (checkSpeedField_reject_range (.numv (401 / 100)) (401 / 100)
        (by decide) (by decide) (by norm_num) rfl (Or.inr (by norm_num)))

/-- Witness for C6 at concrete inputs: a stored numeric start time, a
    stored string-coerced end time, a stored non-unit speed given as a
    string, and the omitted unit speed. -/
theorem validateDownloadParams_bounds_and_omissions_witness :
    validateDownloadParams ⟨.numv 42, .undef, .undef⟩ = .ok ⟨some 42, none, none⟩ ∧
    validateDownloadParams ⟨.undef, .strv "90", .undef⟩ = .ok ⟨none, some 90, none⟩ ∧
    validateDownloadParams ⟨.undef, .undef, .strv "1"⟩ = .ok ⟨none, none, some 1⟩ ∧
    validateDownloadParams ⟨.nullv, .nullv, .undef⟩ = .ok ⟨none, none, none⟩ := by
  refine ⟨(validateDownloadParams_bounds_and_omissions.1 (.numv 42) 42
      (by decide) (by decide) (by decide) (by decide) (by norm_num) (by norm_num)).1,
    (validateDownloadParams_bounds_and_omissions.1 (.strv "90") 90
      (by decide) (by decide) (by decide) (by decide) (by norm_num) (by norm_num)).2,
    ?_, ?_⟩
  · have h := (validateDownloadParams_bounds_and_omissions.2.2.2.2.2.2.2.2.1)
      (.strv "1") 1 (by decide) (by decide) (by decide) (by norm_num) (by norm_num)
    simpa using h
  · exact (validateDownloadParams_bounds_and_omissions.2.2.2.2.2.2.2.1)
      (.nullv) (Or.inr (Or.inl rfl))

/-- C7: when the transcoder command is built from validated parameters
    with both startTime and endTime present, no duration option is set
    when endTime minus startTime is not positive, and a duration equal
    to the difference is set exactly when the difference is positive. -/
theorem downloadMp3_duration_only_when_positive (s e : Rat) (sp : Option Rat) :
    (e - s ≤ 0 → (buildFfmpegCommand (some s) (some e) sp).duration = none) ∧
    (0 < e - s → (buildFfmpegCommand (some s) (some e) sp).duration = some (e - s)) := by
  refine ⟨fun h => ?_, fun h => ?_⟩
  · simp only [buildFfmpegCommand, Option.getD_some]
    rw [if_neg (by linarith)]
  · simp only [buildFfmpegCommand, Option.getD_some]
    rw [if_pos h]

/-- Witness for C7 at startTime 10, endTime 5 (no duration passed) and
    at startTime 10, endTime 15 (duration 5 passed). -/
theorem downloadMp3_duration_only_when_positive_witness :
    ((5 : Rat) - 10 ≤ 0 ∧ (buildFfmpegCommand (some 10) (some 5) none).duration = none) ∧
    (0 < (15 : Rat) - 10 ∧ (buildFfmpegCommand (some 10) (some 15) none).duration = some 5) := by
  refine ⟨⟨by norm_num, (downloadMp3_duration_only_when_positive 10 5 none).1 (by norm_num)⟩,
    ⟨by norm_num, ?_⟩⟩
  have h := (downloadMp3_duration_only_when_positive 10 15 none).2 (by norm_num)
  have he : (15 : Rat) - 10 = 5 := by norm_num
  rw [he] at h
  exact h

/-- C2: every privileged entry point answers a sender that fails
    isAllowedSender with exactly the message Unauthorized, leaving the
    temp directory untouched and performing no observable effect; and
    isAllowedSender rejects any sender whose handle is not the
    registered main window contents, even when the loaded URL matches an
    allowed origin. -/
theorem handlers_guard_unauthorized_senders :
    (∀ (st : AppState) (event : IpcEvent), isAllowedSender st event = false →
      (∀ url info, getVideoInfoHandler st event url info = (.error "Unauthorized", [])) ∧
      (∀ denv, openFileDialogHandler st event denv = (.error "Unauthorized", [])) ∧
      (∀ fp cfg statOf probe,
        getLocalFileInfoHandler st event fp cfg statOf probe =
          (.error "Unauthorized", [])) ∧
      (∀ args ts env files,
        downloadMp3Handler st event args ts env files =
          (.error "Unauthorized", files, [])) ∧
      (∀ fp dd ex, showItemInFolderHandler st event fp dd ex =
        (.error "Unauthorized", []))) ∧
    (∀ (st : AppState) (event : IpcEvent) (w : MainWin),
      st.mainWindow = some w → event.sender.handle ≠ w.contents →
      ((getAllowedOrigins st.isDev).any fun origin =>
        if origin = "file://" then hasPref "file://" event.sender.loadedUrl
        else hasPref origin event.sender.loadedUrl) = true →
      isAllowedSender st event = false) := by
  constructor
  · intro st event h
    refine ⟨fun url info => ?_, fun denv => ?_, fun fp cfg statOf probe => ?_,
      fun args ts env files => ?_, fun fp dd ex => ?_⟩
    · simp [getVideoInfoHandler, h]
    · simp [openFileDialogHandler, h]
    · simp [getLocalFileInfoHandler, h]
    · simp [downloadMp3Handler, h]
    · simp [showItemInFolderHandler, h]
  · intro st event w hw hne _
    unfold isAllowedSender
    rw [hw]
    simp [hne]

/-- Witness for C2: a sender with handle 1 while the registered window
    has handle 0 and the sender shows an allowed file origin; every
    entry point answers Unauthorized. -/
theorem handlers_guard_unauthorized_senders_witness :
    isAllowedSender mainState0 rogueEvent0 = false ∧
    getVideoInfoHandler mainState0 rogueEvent0 (some "http://example.com")
      (.ok ⟨none, none⟩) = (.error "Unauthorized", []) ∧
    openFileDialogHandler mainState0 rogueEvent0 ⟨false, ["/Users/u/a.mp3"]⟩ =
      (.error "Unauthorized", []) ∧
    getLocalFileInfoHandler mainState0 rogueEvent0 (some "/Users/u/a.mp3")
      pathCfg0 (fun _ => .fileR) none = (.error "Unauthorized", []) ∧
    downloadMp3Handler mainState0 rogueEvent0 dlArgs0 123 dlEnv0
      [⟨"keep.mp3", 1⟩] = (.error "Unauthorized", [⟨"keep.mp3", 1⟩], []) ∧
    showItemInFolderHandler mainState0 rogueEvent0
      (some "/Users/u/Downloads/a.mp3") "/Users/u/Downloads" (fun _ => true) =
      (.error "Unauthorized", []) := by
  have hfalse := handlers_guard_unauthorized_senders.2 mainState0 rogueEvent0
    ⟨⟨0⟩, false⟩ rfl (by decide) (by decide)
  have hall := handlers_guard_unauthorized_senders.1 mainState0 rogueEvent0 hfalse
  exact ⟨hfalse, hall.1 _ _, hall.2.1 _, hall.2.2.1 _ _ _ _,
    hall.2.2.2.1 _ _ _ _, hall.2.2.2.2 _ _ _⟩

/-- C3 is the claim that every download-mp3 failure sweeps the temp
    directory of files named with the job timestamp before the error
    reaches the caller.  The code returns the conversion promise from
    inside the try block, so rejections raised after conversion begins
    bypass the catch-block sweep: in this run the fetch and the
    transcode succeed, the window is gone at finalization, the caller
    receives the window error, and both timestamp-named files are still
    in the temp directory. -/
theorem downloadMp3_conversion_failure_skips_sweep :
    downloadMp3Handler mainState0 mainEvent0 dlArgs0 123 dlEnvWindowGone [] =
      (.error "Window not available",
       [⟨"video_123.m4a", 5⟩, ⟨"output_123.mp3", 10⟩],
       [.phase "downloading", .spawnFetch, .phase "converting",
        .spawnTranscode ⟨none, none, none⟩]) ∧
    containsSub (toString 123) "video_123.m4a" = true ∧
    containsSub (toString 123) "output_123.mp3" = true ∧
    sweepTemp 123 [⟨"video_123.m4a", 5⟩, ⟨"output_123.mp3", 10⟩] = [] := by
  refine ⟨by decide, by decide, by decide, by decide⟩

/-- C10: after the sender gate and the window check, the open-file-dialog
    entry point returns a null path when the dialog is canceled, rejects
    a chosen file whose lower-cased extension is not .mp3 or .mp4 with
    the extension message, and otherwise returns the chosen path as is —
    validateLocalFilePath is not applied, so a path outside every allowed
    base, or one that does not exist, is still returned. -/
theorem openFileDialog_extension_check_only :
    ∀ (st : AppState) (event : IpcEvent) (w : MainWin),
      isAllowedSender st event = true → st.mainWindow = some w →
      w.destroyed = false →
      (∀ env : OpenDialogEnv, env.canceled = true →
        openFileDialogHandler st event env = (.ok none, [.dialogOpen])) ∧
      (∀ (fp : String) (tl : List String),
        (ALLOWED_SOURCE_EXT.contains (toLowerStr (extnameStr fp)) = false →
          openFileDialogHandler st event ⟨false, fp :: tl⟩ =
            (.error "Only MP3 and MP4 files are allowed", [.dialogOpen])) ∧
        (ALLOWED_SOURCE_EXT.contains (toLowerStr (extnameStr fp)) = true →
          openFileDialogHandler st event ⟨false, fp :: tl⟩ =
            (.ok (some fp), [.dialogOpen]))) ∧
      (∀ statOf : String → StatResult,
        validateLocalFilePath pathCfgHome statOf (some "/outside/song.mp3") =
          .error "File path is not in an allowed directory") ∧
      openFileDialogHandler st event ⟨false, ["/outside/song.mp3"]⟩ =
        (.ok (some "/outside/song.mp3"), [.dialogOpen]) ∧
      validateLocalFilePath pathCfgHome (fun _ => .enoent)
        (some "/Users/u/gone.mp3") = .error "File not found" ∧
      openFileDialogHandler st event ⟨false, ["/Users/u/gone.mp3"]⟩ =
        (.ok (some "/Users/u/gone.mp3"), [.dialogOpen]) := by
  intro st event w hauth hw hdes
  refine ⟨fun env hc => ?_, fun fp tl => ⟨fun hext => ?_, fun hext => ?_⟩,
    fun statOf => rfl, ?_, rfl, ?_⟩
  · simp [openFileDialogHandler, hauth, hw, hdes, hc]
  · have hm : toLowerStr (extnameStr fp) ∉ ALLOWED_SOURCE_EXT := by
      simpa using hext
    simp [openFileDialogHandler, hauth, hw, hdes, hm]
  · have hm : toLowerStr (extnameStr fp) ∈ ALLOWED_SOURCE_EXT := by
      simpa using hext
    simp [openFileDialogHandler, hauth, hw, hdes, hm]
  · simp [openFileDialogHandler, hauth, hw, hdes]
    decide
  · simp [openFileDialogHandler, hauth, hw, hdes]
    decide

/-- Witness for C10 at the main window and three concrete dialog
    outcomes: canceled, a text file, and an unconfined mp3. -/
theorem openFileDialog_extension_check_only_witness :
    openFileDialogHandler mainState0 mainEvent0 ⟨true, []⟩ =
      (.ok none, [.dialogOpen]) ∧
    openFileDialogHandler mainState0 mainEvent0 ⟨false, ["/Users/u/notes.txt"]⟩ =
      (.error "Only MP3 and MP4 files are allowed", [.dialogOpen]) ∧
    openFileDialogHandler mainState0 mainEvent0 ⟨false, ["/outside/song.mp3"]⟩ =
      (.ok (some "/outside/song.mp3"), [.dialogOpen]) := by
  have h := openFileDialog_extension_check_only mainState0 mainEvent0
    ⟨⟨0⟩, false⟩ (by decide) rfl rfl
  exact ⟨h.1 ⟨true, []⟩ rfl,
    (h.2.1 "/Users/u/notes.txt" []).1 (by decide),
    h.2.2.2.1⟩

/-- C4 as frozen is false: the length guard of validateUrl runs on the
    TRIMMED input, so a 2049-character string consisting of a valid
    short URL followed by spaces is accepted and returned trimmed rather
    than rejected as too long. -/
theorem validateUrl_untrimmed_length_cex :
    validateUrl padded2049 = .ok "http://example.com" ∧
    2048 < padded2049.length := by
  have hne : padded2049 ≠ "" := by
    intro h
    have h2 : padded2049.toList = [] := by rw [h]; rfl
    rw [show padded2049.toList =
      "http://example.com".toList ++ List.replicate 2031 ' ' from rfl] at h2
    exact List.append_ne_nil_of_left_ne_nil (by decide) _ h2
  have htrim : jsTrim padded2049 = "http://example.com" := by
    unfold padded2049
    exact jsTrim_pad "http://example.com" 2031 (by decide) (by decide)
  have hcongr := validateUrl_trim_congr padded2049 "http://example.com" hne
    htrim (by decide)
  constructor
  · rw [hcongr]
    decide
  · rw [show padded2049.length =
      ("http://example.com" ++ String.mk (List.replicate 2031 ' ')).length from rfl,
      String.length_append]
    simp only [String.length_mk, List.length_replicate]
    decide

/-- C4 amended: for every string whose TRIMMED form is longer than 2048
    characters, validateUrl throws the too-long error regardless of
    content; the bound applies after trimming, not to the raw input. -/
theorem validateUrl_rejects_long_trimmed_input (s : String)
    (h : 2048 < (jsTrim s).length) :
    validateUrl s = .error "URL is too long" := by
  have hs : s ≠ "" := by
    intro he
    rw [he] at h
    simp [jsTrim, jsTrimList] at h
  have ht : jsTrim s ≠ "" := by
    intro he
    rw [he] at h
    simp at h
  unfold validateUrl
  rw [if_neg hs, if_neg ht, if_pos (by exact h)]

/-- Witness for amended C4: 2049 letters are rejected as too long. -/
theorem validateUrl_rejects_long_trimmed_input_witness :
    2048 < (jsTrim (String.mk (List.replicate 2049 'h'))).length ∧
    validateUrl (String.mk (List.replicate 2049 'h')) =
      .error "URL is too long" := by
  have ht : jsTrim (String.mk (List.replicate 2049 'h')) =
      String.mk (List.replicate 2049 'h') := by
    unfold jsTrim
    rw [show (String.mk (List.replicate 2049 'h')).toList =
      List.replicate 2049 'h' from rfl,
      jsTrimList_replicate 2049 'h' (by decide)]
  have hlen : 2048 < (jsTrim (String.mk (List.replicate 2049 'h'))).length := by
    rw [ht]
    simp only [String.length_mk, List.length_replicate]
    decide
  exact ⟨hlen, validateUrl_rejects_long_trimmed_input _ hlen⟩

theorem mem_insertDesc (x f : TempFile) (l : List TempFile) :
    x ∈ insertDesc f l ↔ x = f ∨ x ∈ l := by
  induction l with
  | nil => simp [insertDesc]
  | cons g t ih =>
    unfold insertDesc
    by_cases h : g.mtime ≤ f.mtime
    · rw [if_pos h]
      simp
    · rw [if_neg h]
      simp [ih]
      tauto

theorem mem_sortDesc (x : TempFile) (l : List TempFile) :
    x ∈ sortDesc l ↔ x ∈ l := by
  induction l with
  | nil => simp [sortDesc]
  | cons f t ih =>
    unfold sortDesc
    rw [mem_insertDesc]
    simp [ih]

theorem sortDesc_head_max (l : List TempFile) :
    ∀ f tl, sortDesc l = f :: tl → ∀ g ∈ l, g.mtime ≤ f.mtime := by
  induction l with
  | nil => intro f tl h; simp [sortDesc] at h
  | cons a t ih =>
    intro f tl h g hg
    unfold sortDesc at h
    cases hs : sortDesc t with
    | nil =>
      rw [hs] at h
      unfold insertDesc at h
      injection h with h1 h2
      subst h1
      have : t = [] := by
        cases t with
        | nil => rfl
        | cons b t2 =>
          exfalso
          unfold sortDesc at hs
          cases hb : sortDesc t2 with
          | nil => rw [hb] at hs; simp [insertDesc] at hs
          | cons c t3 =>
            rw [hb] at hs
            unfold insertDesc at hs
            by_cases hc : c.mtime ≤ b.mtime
            · rw [if_pos hc] at hs; simp at hs
            · rw [if_neg hc] at hs; simp at hs
      subst this
      simp at hg
      subst hg
      exact le_refl _
    | cons b t2 =>
      rw [hs] at h
      unfold insertDesc at h
      by_cases hc : b.mtime ≤ a.mtime
      · rw [if_pos hc] at h
        injection h with h1 h2
        subst h1
        rcases List.mem_cons.mp hg with h3 | h3
        · subst h3; exact le_refl _
        · exact le_trans (ih b t2 hs g h3) hc
      · rw [if_neg hc] at h
        injection h with h1 h2
        subst h1
        rcases List.mem_cons.mp hg with h3 | h3
        · subst h3; exact le_of_not_le hc
        · exact ih b t2 hs g h3

theorem insertDesc_ne_nil (f : TempFile) (l : List TempFile) :
    insertDesc f l ≠ [] := by
  cases l with
  | nil => simp [insertDesc]
  | cons g t =>
    unfold insertDesc
    by_cases h : g.mtime ≤ f.mtime
    · rw [if_pos h]; simp
    · rw [if_neg h]; simp

theorem sortDesc_eq_nil_iff (l : List TempFile) : sortDesc l = [] ↔ l = [] := by
  cases l with
  | nil => simp [sortDesc]
  | cons f t =>
    simp only [sortDesc]
    constructor
    · intro h
      exact absurd h (insertDesc_ne_nil f (sortDesc t))
    · intro h
      exact absurd h (by simp)

theorem promptAndSave_result_ne_not_found (env : DlEnv) (isL : Bool)
    (dfp : String) (f : TempFile) (fn : String) (files : List TempFile) :
    (promptAndSave env isL dfp f fn files).1 ≠ .error "Output file not found" := by
  unfold promptAndSave
  cases hw : env.windowAliveAtEnd with
  | false => simp
  | true =>
    cases hp : env.savePath with
    | none => simp
    | some p => simp

/-- C9: in finalization, when no temp file starts with the job prefix
    output_ts, the operation does not fail immediately: it selects the
    most recently modified .mp3 of the shared temp directory — a file
    that need not contain the job identifier — and hands it to the
    save-and-deliver step; the not-found error occurs exactly when the
    directory holds no .mp3 at all. -/
theorem downloadMp3_fallback_most_recent_mp3 (env : DlEnv) (ts : Nat) (isL : Bool) (dfp title : String)
    (files : List TempFile) (hnone : findFinalOutput ts files = none) :
    (∀ f, (mp3Candidates files).head? = some f →
      f ∈ files ∧ hasSuffixStr ".mp3" f.name = true ∧
      (∀ g ∈ files, hasSuffixStr ".mp3" g.name = true → g.mtime ≤ f.mtime) ∧
      finalizePhase env ts isL dfp title files =
        promptAndSave env isL dfp f (title ++ ".mp3") files) ∧
    ((finalizePhase env ts isL dfp title files).1 = .error "Output file not found"
      ↔ ∀ g ∈ files, hasSuffixStr ".mp3" g.name = false) := by
  constructor
  · intro f hf
    cases hs : mp3Candidates files with
    | nil => rw [hs] at hf; simp at hf
    | cons a tl =>
      rw [hs] at hf
      simp at hf
      subst hf
      have hmem : a ∈ files.filter fun g => hasSuffixStr ".mp3" g.name := by
        have h1 : a ∈ mp3Candidates files := by rw [hs]; exact List.mem_cons_self _ _
        exact (mem_sortDesc a _).mp h1
      have hmem2 := List.mem_filter.mp hmem
      refine ⟨hmem2.1, hmem2.2, fun g hg hgs => ?_, ?_⟩
      · exact sortDesc_head_max _ a tl hs g (List.mem_filter.mpr ⟨hg, hgs⟩)
      · unfold finalizePhase
        rw [hnone, hs]
        rfl
  · constructor
    · intro h
      by_contra hg
      push_neg at hg
      obtain ⟨g, hgmem, hgs⟩ := hg
      have hgs2 : hasSuffixStr ".mp3" g.name = true := by
        cases hb : hasSuffixStr ".mp3" g.name with
        | false => exact absurd hb hgs
        | true => rfl
      have hne : mp3Candidates files ≠ [] := by
        intro hnil
        have := (sortDesc_eq_nil_iff _).mp hnil
        have hmem : g ∈ files.filter fun x => hasSuffixStr ".mp3" x.name :=
          List.mem_filter.mpr ⟨hgmem, hgs2⟩
        rw [this] at hmem
        simp at hmem
      cases hs : mp3Candidates files with
      | nil => exact absurd hs hne
      | cons a tl =>
        have hfin : finalizePhase env ts isL dfp title files =
            promptAndSave env isL dfp a (title ++ ".mp3") files := by
          unfold finalizePhase
          rw [hnone, hs]
          rfl
        rw [hfin] at h
        exact promptAndSave_result_ne_not_found env isL dfp a _ files h
    · intro h
      have hfil : files.filter (fun g => hasSuffixStr ".mp3" g.name) = [] := by
        apply List.filter_eq_nil_iff.mpr
        intro a ha
        rw [h a ha]
        simp
      have hcand : mp3Candidates files = [] := by
        unfold mp3Candidates
        rw [hfil]
        rfl
      unfold finalizePhase
      rw [hnone, hcand]
      rfl

/-- Witness for C9: with no output_123 file present, the fallback picks
    stale.mp3 (the newest .mp3, from another job) and delivers it, and a
    directory with only junk.txt yields the not-found error. -/
theorem downloadMp3_fallback_most_recent_mp3_witness :
    findFinalOutput 123 [⟨"output_42.mp3", 3⟩, ⟨"stale.mp3", 9⟩, ⟨"junk.txt", 50⟩] = none ∧
    (⟨"stale.mp3", 9⟩ : TempFile) ∈
      ([⟨"output_42.mp3", 3⟩, ⟨"stale.mp3", 9⟩, ⟨"junk.txt", 50⟩] : List TempFile) ∧
    (∀ g ∈ ([⟨"output_42.mp3", 3⟩, ⟨"stale.mp3", 9⟩, ⟨"junk.txt", 50⟩] : List TempFile),
      hasSuffixStr ".mp3" g.name = true →
      g.mtime ≤ (⟨"stale.mp3", 9⟩ : TempFile).mtime) ∧
    finalizePhase dlEnv0 123 false "in.m4a" "t"
        [⟨"output_42.mp3", 3⟩, ⟨"stale.mp3", 9⟩, ⟨"junk.txt", 50⟩] =
      promptAndSave dlEnv0 false "in.m4a" ⟨"stale.mp3", 9⟩ ("t" ++ ".mp3")
        [⟨"output_42.mp3", 3⟩, ⟨"stale.mp3", 9⟩, ⟨"junk.txt", 50⟩] ∧
    (finalizePhase dlEnv0 123 false "in.m4a" "t" [⟨"junk.txt", 50⟩]).1 =
      .error "Output file not found" := by
  have h9 := (downloadMp3_fallback_most_recent_mp3 dlEnv0 123 false "in.m4a" "t"
    [⟨"output_42.mp3", 3⟩, ⟨"stale.mp3", 9⟩, ⟨"junk.txt", 50⟩] (by decide)).1
    ⟨"stale.mp3", 9⟩ (by decide)
  have herr := (downloadMp3_fallback_most_recent_mp3 dlEnv0 123 false "in.m4a" "t"
    [⟨"junk.txt", 50⟩] (by decide)).2.mpr (by decide)
  exact ⟨by decide, h9.1, h9.2.2.1, h9.2.2.2, herr⟩

/-- C5 amended: sanitizeFilename is idempotent on every input whose
    sanitized form does not end in a space; the only failure mode of
    idempotence is the 200-character truncation cutting right after a
    space, which the second pass then trims. -/
theorem sanitizeFilename_idem_no_trailing_space (x : String)
    (h : (sanitizeFilename x).toList.getLast? ≠ some ' ') :
    sanitizeFilename (sanitizeFilename x) = sanitizeFilename x := by
  by_cases hx : x = ""
  · subst hx
    decide
  · have hfx : sanitizeFilename x =
        if String.mk ((jsTrimList (collapseWs (stripBad x.toList))).take 200) = ""
        then "audio"
        else String.mk ((jsTrimList (collapseWs (stripBad x.toList))).take 200) := by
      unfold sanitizeFilename
      rw [if_neg hx]
    by_cases hr :
        String.mk ((jsTrimList (collapseWs (stripBad x.toList))).take 200) = ""
    · rw [hfx, if_pos hr]
      decide
    · have hfx2 : sanitizeFilename x =
          String.mk ((jsTrimList (collapseWs (stripBad x.toList))).take 200) := by
        rw [hfx, if_neg hr]
      rw [hfx2] at h ⊢
      have hne : (jsTrimList (collapseWs (stripBad x.toList))).take 200 ≠ [] :=
        fun hn => hr ((mk_eq_empty_iff _).mpr hn)
      have hmemM : ∀ c ∈ (jsTrimList (collapseWs (stripBad x.toList))).take 200,
          (c ∈ stripBad x.toList ∧ isJsSpace c = false) ∨ c = ' ' := by
        intro c hc
        exact mem_collapseWsAux _ false c
          (mem_jsTrimList _ c (List.mem_of_mem_take hc))
      have hbad : ∀ c ∈ (jsTrimList (collapseWs (stripBad x.toList))).take 200,
          badFilenameChar c = false := by
        intro c hc
        rcases hmemM c hc with ⟨h1, _⟩ | h1
        · have := List.of_mem_filter h1
          simpa using this
        · rw [h1]
          decide
      have hws : ∀ c ∈ (jsTrimList (collapseWs (stripBad x.toList))).take 200,
          isJsSpace c = true → c = ' ' := by
        intro c hc hcs
        rcases hmemM c hc with ⟨_, h2⟩ | h1
        · rw [hcs] at h2
          exact absurd h2 (by simp)
        · exact h1
      have hch : List.Chain' wsApart
          ((jsTrimList (collapseWs (stripBad x.toList))).take 200) :=
        List.Chain'.take (chain'_jsTrimList _ (chain'_collapseWsAux _ false)) 200
      have hhead : ∀ c t,
          (jsTrimList (collapseWs (stripBad x.toList))).take 200 = c :: t →
          isJsSpace c = false := by
        intro c t hct
        cases hj : jsTrimList (collapseWs (stripBad x.toList)) with
        | nil => rw [hj] at hct; simp at hct
        | cons d r =>
          rw [hj] at hct
          rw [List.take_succ_cons] at hct
          injection hct with h1 h2
          rw [h1] at hj
          exact head_nonws_of_jsTrimList _ _ _ hj
      exact sanitizeFilename_fix _ hne hbad hws hch hhead h
        (List.length_take_le 200 _)

set_option maxRecDepth 8000 in
/-- C5 as frozen is false: truncating to 200 characters can leave a
    trailing space, which a second application trims away, so
    sanitizeFilename is not idempotent on 199 letters, a space and a
    letter. -/
theorem sanitizeFilename_not_idempotent_cex :
    sanitizeFilename (sanitizeFilename
      (String.mk (List.replicate 199 'a' ++ [' ', 'b']))) ≠
    sanitizeFilename (String.mk (List.replicate 199 'a' ++ [' ', 'b'])) := by
  decide

/-- Witness for amended C5: a padded two-word title sanitizes to a
    string without a trailing space, on which a second application is the
    identity. -/
theorem sanitizeFilename_idem_no_trailing_space_witness :
    (sanitizeFilename "  hello   world  ").toList.getLast? ≠ some ' ' ∧
    sanitizeFilename (sanitizeFilename "  hello   world  ") =
      sanitizeFilename "  hello   world  " :=
  ⟨by decide, sanitizeFilename_idem_no_trailing_space _ (by decide)⟩

/-- C8: for every input whose trimmed form is an https URL of length at
most 2048 whose host is a public dotted IPv4 address (not loopback,
private, or unspecified under the validator checks), validateUrl accepts
and returns exactly the trimmed input, unchanged. -/
theorem validateUrl_accepts_public_ipv4 (s host suffix : String)
    (a b c d : Nat)
    (htrim : jsTrim s = "https://" ++ host ++ suffix)
    (hip : parseIPv4 host.toList = some (a, b, c, d))
    (hsuf : suffix.toList = [] ∨
      ∃ c0 t, suffix.toList = c0 :: t ∧ isAuthEnd c0 = true)
    (hpub : a ≠ 127 ∧ a ≠ 10 ∧ ¬(a = 172 ∧ 16 ≤ b ∧ b ≤ 31) ∧
            ¬(a = 192 ∧ b = 168) ∧ ¬(a = 0 ∧ b = 0 ∧ c = 0 ∧ d = 0))
    (hlen : ("https://" ++ host ++ suffix).length ≤ MAX_URL_LENGTH) :
    validateUrl s = .ok (jsTrim s) := by
  have hform : ("https://" ++ host ++ suffix).toList =
      'h' :: 't' :: 't' :: 'p' :: 's' :: ':' :: '/' :: '/' ::
        (host.toList ++ suffix.toList) := rfl
  have hs0 : s ≠ "" := by
    intro he
    rw [he] at htrim
    have h2 := congrArg String.toList htrim
    rw [hform] at h2
    exact List.noConfusion h2
  have hurl0 : "https://" ++ host ++ suffix ≠ "" := by
    intro he
    have h2 := congrArg String.toList he
    rw [hform] at h2
    exact List.noConfusion h2
  have hlen2 : ¬(MAX_URL_LENGTH < ("https://" ++ host ++ suffix).length) := by
    omega
  have hchars := parseIPv4_chars _ a b c d hip
  have hmap : host.toList.map toLowerC = host.toList :=
    map_toLowerC_digitDot _ hchars
  have hneL : host.toList ≠ [] := (parseIPv4_len _ a b c d hip).2
  have hok : ∀ x ∈ host.toList, hostForbidden x = false := by
    intro x hx
    rcases hchars x hx with h1 | h1
    · exact (digitDot_ok x (Or.inl (isDigitC_toNat x h1))).1
    · subst h1
      exact (digitDot_ok '.' (Or.inr rfl)).1
  obtain ⟨hnum, hip2, hb1, hb2, hb3, hb4⟩ :=
    quad_normalization host.toList a b c d hip
  have hparseU : parseUrlList ("https://" ++ host ++ suffix).toList =
      some ⟨"https:", String.mk (serializeIPv4
        (a * 16777216 + b * 65536 + c * 256 + d))⟩ := by
    rw [hform]
    exact parseUrl_https_num host.toList suffix.toList _ hneL hok hsuf
      (by rw [hmap]; exact hnum) (by rw [hmap]; exact hip2)
  obtain ⟨q1, q2, q3, q4⟩ := quad_bytes a b c d hb1 hb2 hb3 hb4
  obtain ⟨hlow, hne0, hip3⟩ :=
    serialized_host_facts (a * 16777216 + b * 65536 + c * 256 + d)
  rw [q1, q2, q3, q4] at hip3
  obtain ⟨hbl, hpr, hlp⟩ := publicIPv4_checks_false
    (String.mk (serializeIPv4 (a * 16777216 + b * 65536 + c * 256 + d)))
    a b c d hip3 hpub
  unfold validateUrl
  rw [if_neg hs0, htrim, if_neg hurl0, if_neg hlen2, hparseU]
  have hred : (decide (("https:" : String) ≠ "http:") &&
      decide (("https:" : String) ≠ "https:")) = false := by decide
  simp only [hred, Bool.false_eq_true, if_false, hbl, hpr, hlp]

/-- Witness for C8 at the concrete input "https://93.184.216.34/x". -/
theorem validateUrl_accepts_public_ipv4_witness :
    validateUrl "https://93.184.216.34/x" = .ok "https://93.184.216.34/x" := by
  have h := validateUrl_accepts_public_ipv4 "https://93.184.216.34/x"
    "93.184.216.34" "/x" 93 184 216 34 (by rfl) (by rfl)
    (Or.inr ⟨'/', ['x'], rfl, rfl⟩) (by omega) (by decide)
  rw [h]
  rfl

/-- C1 counterexample: the raw IPv6 loopback host "::1" is in the spec
block set, but validateUrl on "http://::1" reports the URL-parse failure
"Invalid URL", not one of the localhost/private-network messages. -/
theorem validateUrl_raw_ipv6_cex :
    validateUrl "http://::1" = .error "Invalid URL" := by rfl

/-- C1 (amended): validateUrl on "http://" ++ host rejects every blocked
representation the URL parser can reach: case variants of localhost and
the literal hosts 127.0.0.1, 0.0.0.0, [::1] with the localhost message;
every dotted IPv4 host in the loopback/private/unspecified ranges, and
every all-digit decimal encoding of such an address (the URL parser
IPv4-normalizes it to dotted form first), with one of the three
localhost/private messages; but every raw (unbracketed) host starting
with a colon - which covers ::1 and the ::ffff: forms of the original
claim - fails URL parsing with "Invalid URL" instead of a
localhost/private message. -/
theorem validateUrl_blocked_host_families :
    (∀ h : String, h.toList.map toLowerC = "localhost".toList →
       validateUrl ("http://" ++ h) = .error "Localhost URLs are not allowed") ∧
    (∀ h : String,
       (h.toList.map toLowerC = "127.0.0.1".toList ∨
        h.toList.map toLowerC = "0.0.0.0".toList ∨
        h.toList.map toLowerC = "[::1]".toList) →
       validateUrl ("http://" ++ h) = .error "Localhost URLs are not allowed") ∧
    (∀ (h : String) (a b c d : Nat), parseIPv4 h.toList = some (a, b, c, d) →
       (a = 127 ∨ a = 10 ∨ (a = 172 ∧ 16 ≤ b ∧ b ≤ 31) ∨ (a = 192 ∧ b = 168) ∨
        (a = 0 ∧ b = 0 ∧ c = 0 ∧ d = 0)) →
       ∃ m, validateUrl ("http://" ++ h) = .error m ∧
         (m = "Localhost URLs are not allowed" ∨
          m = "Private network URLs are not allowed" ∨
          m = "Localhost and private network URLs are not allowed")) ∧
    (∀ h : String, allDigits h.toList = true →
       (∀ t, h.toList = '0' :: t → t = []) → h.length ≤ 2041 →
       digitsToNat h.toList ≤ 4294967295 →
       (digitsToNat h.toList / 2 ^ 24 % 256 = 127 ∨
        digitsToNat h.toList / 2 ^ 24 % 256 = 10 ∨
        (digitsToNat h.toList / 2 ^ 24 % 256 = 172 ∧
         16 ≤ digitsToNat h.toList / 2 ^ 16 % 256 ∧
         digitsToNat h.toList / 2 ^ 16 % 256 ≤ 31) ∨
        (digitsToNat h.toList / 2 ^ 24 % 256 = 192 ∧
         digitsToNat h.toList / 2 ^ 16 % 256 = 168) ∨
        (digitsToNat h.toList / 2 ^ 24 % 256 = 0 ∧
         digitsToNat h.toList / 2 ^ 16 % 256 = 0 ∧
         digitsToNat h.toList / 2 ^ 8 % 256 = 0 ∧
         digitsToNat h.toList % 256 = 0)) →
       ∃ m, validateUrl ("http://" ++ h) = .error m ∧
         (m = "Localhost URLs are not allowed" ∨
          m = "Private network URLs are not allowed" ∨
          m = "Localhost and private network URLs are not allowed")) ∧
    (∀ h : String, (∃ t, h.toList = ':' :: t) →
       (∀ c ∈ h.toList, isAuthEnd c = false ∧ c ≠ '@' ∧ isJsSpace c = false) →
       h.length ≤ 2041 →
       validateUrl ("http://" ++ h) = .error "Invalid URL") := by
  refine ⟨validateUrl_localhost_variants, ?_, validateUrl_private_dotted,
    validateUrl_private_decimal, validateUrl_http_invalid⟩
  intro h hm
  have he : h = "127.0.0.1" ∨ h = "0.0.0.0" ∨ h = "[::1]" := by
    rcases hm with hm | hm | hm
    · left
      have h2 := eq_of_map_toLowerC_nonletters _ _ hm (by decide)
      rw [← mk_toList h, h2]
      rfl
    · right; left
      have h2 := eq_of_map_toLowerC_nonletters _ _ hm (by decide)
      rw [← mk_toList h, h2]
      rfl
    · right; right
      have h2 := eq_of_map_toLowerC_nonletters _ _ hm (by decide)
      rw [← mk_toList h, h2]
      rfl
  rcases he with he | he | he <;> subst he <;> rfl

/-- Witness for the amended C1 theorem: each family instantiated at a
concrete host. -/
theorem validateUrl_blocked_host_families_witness :
    validateUrl "http://LOCALHOST" = .error "Localhost URLs are not allowed" ∧
    validateUrl "http://127.0.0.1" = .error "Localhost URLs are not allowed" ∧
    (∃ m, validateUrl "http://10.0.0.1" = .error m ∧
      (m = "Localhost URLs are not allowed" ∨
       m = "Private network URLs are not allowed" ∨
       m = "Localhost and private network URLs are not allowed")) ∧
    (∃ m, validateUrl "http://2130706433" = .error m ∧
      (m = "Localhost URLs are not allowed" ∨
       m = "Private network URLs are not allowed" ∨
       m = "Localhost and private network URLs are not allowed")) ∧
    validateUrl "http://::ffff:127.0.0.1" = .error "Invalid URL" := by
  refine ⟨?_, ?_, ?_, ?_, ?_⟩
  · exact validateUrl_blocked_host_families.1 "LOCALHOST" rfl
  · exact validateUrl_blocked_host_families.2.1 "127.0.0.1" (Or.inl rfl)
  · exact validateUrl_blocked_host_families.2.2.1 "10.0.0.1" 10 0 0 1 rfl
      (Or.inr (Or.inl rfl))
  · refine validateUrl_blocked_host_families.2.2.2.1 "2130706433" (by decide)
      ?_ (by decide) (by decide) (Or.inl (by decide))
    intro t ht
    injection ht with h1 h2
    exact absurd h1 (by decide)
  · exact validateUrl_blocked_host_families.2.2.2.2 "::ffff:127.0.0.1"
      ⟨":ffff:127.0.0.1".toList, rfl⟩ (by decide) (by decide)

end Snippet
